import Mathlib

/-!
Shallow embedding of the OCW workspace orchestration core (Go) and proofs
about the claims of its specification.

Conventions of the embedding:
* Go strings are Lean `String`s; character-level operations work on `String.data`.
* Machine integers (`int`, process ids) are `Int`; timestamps are `Nat`.
* The persisted store (`.ocw/state.json`) is modelled as a pure `State` value;
  `Load`/`Save` round-trip exactly (the store performs atomic writes), so each
  load-modify-save operation becomes a pure function `State → ... → Except String State`.
  An `Except.error` result means the persisted document is unchanged.
* External tools (git, tmux, the OS) are modelled by environment records whose
  fields give, for each invocation the code performs, the reply the tool returns.
-/

namespace OCW

/-- A sub-terminal pane of an instance (state.SubTerminal). -/
structure SubTerminal where
  paneID : String
  label : String
  createdAt : Nat
deriving DecidableEq, Repr

/-- One workspace instance record (state.Instance). -/
structure Instance where
  id : String
  name : String
  branch : String
  baseBranch : String
  worktreePath : String
  tmuxWindow : String
  primaryPane : String
  subTerminals : List SubTerminal
  pid : Int
  port : Int
  status : String
  createdAt : Nat
  lastActivity : Nat
  prUrl : String
  conflictsWith : List String
  dependsOn : List String
deriving DecidableEq, Repr

/-- The complete persisted document (state.State). -/
structure State where
  repo : String
  tmuxSession : String
  instances : List Instance
deriving DecidableEq, Repr

/-- A blank instance record used to build concrete test records by update. -/
def blankInstance : Instance :=
  { id := "", name := "", branch := "", baseBranch := "", worktreePath := ""
  , tmuxWindow := "", primaryPane := "", subTerminals := [], pid := 0, port := 0
  , status := "", createdAt := 0, lastActivity := 0, prUrl := ""
  , conflictsWith := [], dependsOn := [] }

/-- A blank state document. -/
def blankState : State := { repo := "", tmuxSession := "", instances := [] }

/-- Store.AddInstance: load, append the given record unchanged, save.  The
record is persisted exactly as supplied; no field is filled in. -/
def AddInstance (st : State) (inst : Instance) : State :=
  { st with instances := st.instances ++ [inst] }

/-- Store.RemoveInstance: load, keep every instance whose id differs, save. -/
def RemoveInstance (st : State) (id : String) : State :=
  { st with instances := st.instances.filter (fun i => i.id ≠ id) }

/-- Helper of Store.UpdateInstance: apply `fn` to the first instance whose id
matches; `none` when there is no match. -/
def updateFirst (fn : Instance → Instance) (id : String) :
    List Instance → Option (List Instance)
  | [] => none
  | i :: rest =>
    if i.id == id then some (fn i :: rest)
    else (updateFirst fn id rest).map (fun r => i :: r)

/-- Store.UpdateInstance: load, mutate the first instance with the given id,
save; error (and no write) when the id is absent. -/
def UpdateInstance (st : State) (id : String) (fn : Instance → Instance) :
    Except String State :=
  match updateFirst fn id st.instances with
  | some l => .ok { st with instances := l }
  | none => .error ("instance with ID " ++ id ++ " not found")

/-- Digit characters used by Go encoding/hex (lowercase). -/
def hexDigit (n : Nat) : Char := "0123456789abcdef".data.getD n 'x'

/-- Hex encoding of one byte: high nibble then low nibble. -/
def hexByte (b : Fin 256) : List Char := [hexDigit (b.val / 16), hexDigit (b.val % 16)]

/-- state.GenerateID applied to the three bytes the crypto source returned:
hex-encode 3 bytes into a 6-character string. -/
def GenerateID (bytes : Fin 256 × Fin 256 × Fin 256) : String :=
  ⟨hexByte bytes.1 ++ hexByte bytes.2.1 ++ hexByte bytes.2.2⟩

/-- Lowercase hexadecimal characters. -/
def isLowerHex (c : Char) : Bool :=
  ('0' ≤ c && c ≤ '9') || ('a' ≤ c && c ≤ 'f')

/-! ## String helpers shared by the session controller and branch sanitiser -/

/-- Alphanumeric test as written in the Go sources (ASCII ranges). -/
def isAlnumGo (c : Char) : Bool :=
  ('a' ≤ c && c ≤ 'z') || ('A' ≤ c && c ≤ 'Z') || ('0' ≤ c && c ≤ '9')

/-- strings.Trim: remove from both ends every character contained in `cut`. -/
def trimChars (cut : List Char) (l : List Char) : List Char :=
  (((l.dropWhile (fun c => cut.contains c)).reverse.dropWhile
      (fun c => cut.contains c)).reverse)

/-- filepath.Base for Unix paths: empty gives ".", trailing separators are
stripped, the part after the last separator is kept, all-separators gives "/". -/
def goBase (path : String) : String :=
  if path = "" then "." else
  let l1 := (path.data.reverse.dropWhile (fun c => c == '/')).reverse
  let l2 := (l1.reverse.takeWhile (fun c => c != '/')).reverse
  if l2 = [] then "/" else ⟨l2⟩

/-! ## Session controller (SessionName / extractRepoName) -/

/-- workspace.extractRepoName: the base name of the repository path with every
non-alphanumeric character replaced by a hyphen (strings.Map, one character at
a time), hyphens trimmed from both ends, and "repo" as fallback when empty. -/
def extractRepoName (repoPath : String) : String :=
  let name := goBase repoPath
  let cleaned := name.data.map (fun c => if isAlnumGo c then c else '-')
  let t := trimChars ['-'] cleaned
  if t = [] then "repo" else ⟨t⟩

/-- workspace.Manager.SessionName: configured prefix, hyphen, sanitised repo
base name. -/
def SessionName (sessionPrefix repoRoot : String) : String :=
  sessionPrefix ++ "-" ++ extractRepoName repoRoot

/-- Modelled from the spec wording of C7: collapse every run of consecutive
non-alphanumeric characters to a single hyphen.  The flag records whether the
previous character belonged to a non-alphanumeric run. -/
def collapseAux : Bool → List Char → List Char
  | _, [] => []
  | inRun, c :: rest =>
    if isAlnumGo c then c :: collapseAux false rest
    else if inRun then collapseAux true rest
    else '-' :: collapseAux true rest

/-- Modelled from the spec wording of C7: collapse runs, starting outside any
run. -/
def specCollapseRuns (l : List Char) : List Char := collapseAux false l

/-- Modelled from the spec wording of C7: session name built with run-collapsing
sanitisation and trimming of leading/trailing hyphens. -/
def specSessionName (sessionPrefix repoRoot : String) : String :=
  sessionPrefix ++ "-" ++ ⟨trimChars ['-'] (specCollapseRuns (goBase repoRoot).data)⟩

/-! ## Branch-name sanitiser and worktree path derivation -/

/-- Characters kept by the regular expression class of sanitizeBranchName. -/
def branchAllowed (c : Char) : Bool :=
  isAlnumGo c || c == '-' || c == '_' || c == '.'

/-- workspace.sanitizeBranchName: slashes become hyphens, every character
outside the allowed class becomes a hyphen, hyphens and periods are trimmed
from both ends, and "branch" is used when nothing remains. -/
def sanitizeBranchName (branch : String) : String :=
  let s1 := branch.data.map (fun c => if c == '/' then '-' else c)
  let s2 := s1.map (fun c => if branchAllowed c then c else '-')
  let t := trimChars ['-', '.'] s2
  if t = [] then "branch" else ⟨t⟩

/-- filepath.Join on already-clean components: empty components are skipped and
the rest are joined with single slashes (the Clean normalisation beyond
empty-component removal is not exercised by the callers modelled here). -/
def joinNonEmpty : List String → String
  | [] => ""
  | [s] => s
  | s :: rest => s ++ "/" ++ joinNonEmpty rest

/-- filepath.Join of a component list. -/
def joinPath (parts : List String) : String :=
  joinNonEmpty (parts.filter (fun s => s ≠ ""))

/-- Worktree path derived by CreateInstance:
filepath.Join(repoRoot, worktreeDir, sanitizeBranchName(branch)). -/
def worktreePathOf (repoRoot worktreeDir branch : String) : String :=
  joinPath [repoRoot, worktreeDir, sanitizeBranchName branch]

/-- Modelled from the spec wording of C8: map slash to hyphen, map characters
outside the class to hyphen, then strip leading hyphens and periods only. -/
def specSanitizeBranchC8 (branch : String) : String :=
  ⟨((branch.data.map (fun c => if c == '/' then '-' else c)).map
      (fun c => if branchAllowed c then c else '-')).dropWhile
        (fun c => c == '-' || c == '.')⟩

/-! ## Review-request URL extraction (merge.go) -/

/-- Whitespace characters recognised by strings.TrimSpace for the Latin-1
range (the rarely-used higher Unicode space code points are not modelled). -/
def goIsSpace (c : Char) : Bool :=
  c == ' ' || c == '\t' || c == '\n' ||
  c == Char.ofNat 11 || c == Char.ofNat 12 || c == '\r' ||
  c == Char.ofNat 133 || c == Char.ofNat 160

/-- strings.TrimSpace: whitespace removed from both ends. -/
def goTrimSpace (s : String) : String :=
  ⟨((s.data.dropWhile goIsSpace).reverse.dropWhile goIsSpace).reverse⟩

/-- Newline split at the character level: Go strings.Split(s, newline). -/
def splitNl : List Char → List (List Char)
  | [] => [[]]
  | c :: rest =>
    match splitNl rest with
    | [] => [[]]
    | grp :: groups =>
      if c = '\n' then [] :: grp :: groups else (c :: grp) :: groups

/-- strings.Split on a newline separator. -/
def splitLines (s : String) : List String := (splitNl s.data).map (fun g => ⟨g⟩)

/-- strings.HasPrefix(s, "http"). -/
def startsWithHttp (s : String) : Bool := "http".data.isPrefixOf s.data

/-- The backwards scan both extraction functions use: the line with the
highest index whose raw text starts with "http". -/
def lastHttpLine (lines : List String) : Option String :=
  lines.reverse.find? (fun l => startsWithHttp l)

/-- createGitHubPR after the child process succeeded: split the trimmed
combined output into lines; take the trimmed last line; when it does not start
with "http", fall back to the last raw line that does; return the result in
every case (extraction itself never fails). -/
def extractGhURL (output : String) : Except String String :=
  let lines := splitLines (goTrimSpace output)
  if lines.length = 0 then .error "no output from gh pr create"
  else
    let prURL := goTrimSpace (lines.getLastD "")
    if startsWithHttp prURL then .ok prURL
    else
      match lastHttpLine lines with
      | some l => .ok (goTrimSpace l)
      | none => .ok prURL

/-- createGitLabMR after the child process succeeded: split the trimmed
combined output into lines; return the trimmed last raw line starting with
"http", or fail when there is none. -/
def extractGlabURL (output : String) : Except String String :=
  let lines := splitLines (goTrimSpace output)
  if lines.length = 0 then .error "no output from glab mr create"
  else
    match lastHttpLine lines with
    | some l => .ok (goTrimSpace l)
    | none => .error ("could not find MR URL in glab output: " ++ output)


/-! ## Dependency gate and process lifecycle -/

/-- Lookup matching a Go map built by successive insertion over the instance
list: the last instance with the given id wins. -/
def lookupLast (insts : List Instance) (id : String) : Option Instance :=
  insts.reverse.find? (fun i => i.id == id)

/-- First instance with the given id (the Go lookup loops and breaks on the
first match). -/
def findInstance (st : State) (id : String) : Option Instance :=
  st.instances.find? (fun i => i.id == id)

/-- Manager.CheckDependenciesMerged: keep the depends_on ids that resolve to a
stored instance whose status is neither merged nor done; ids that do not
resolve are skipped silently. -/
def CheckDependenciesMerged (st : State) (instanceID : String) :
    Except String (List String) :=
  match lookupLast st.instances instanceID with
  | none => .error ("instance " ++ instanceID ++ " not found")
  | some inst =>
    .ok (inst.dependsOn.filter (fun depID =>
      match lookupLast st.instances depID with
      | none => false
      | some dep => decide (dep.status ≠ "merged") && decide (dep.status ≠ "done")))

/-- Environment for process-signal system calls: whether a kill call to a pid
succeeds (modelled signal-independent and stable across one operation), and
the wall-clock time recorded into last_activity. -/
structure ProcEnv where
  killOk : Int → Bool
  now : Nat

/-- workspace.isProcessAlive: non-positive pids are reported absent, otherwise
the zero-signal kill probe decides. -/
def isProcessAlive (env : ProcEnv) (pid : Int) : Bool :=
  if pid ≤ 0 then false else env.killOk pid

/-- workspace.Manager.PauseInstance: probe the pid, send the stop signal, set
status paused. -/
def PauseInstance (env : ProcEnv) (st : State) (id : String) : Except String State :=
  match findInstance st id with
  | none => .error ("instance " ++ id ++ " not found")
  | some inst =>
    if isProcessAlive env inst.pid = false then
      .error "process is not running"
    else if env.killOk inst.pid = false then
      .error "failed to pause process"
    else
      UpdateInstance st id (fun i => { i with status := "paused" })

/-- workspace.Manager.ResumeInstance: no liveness probe is made; the continue
signal is sent directly and only its failure aborts. -/
def ResumeInstance (env : ProcEnv) (st : State) (id : String) : Except String State :=
  match findInstance st id with
  | none => .error ("instance " ++ id ++ " not found")
  | some inst =>
    if env.killOk inst.pid = false then
      .error "failed to resume process"
    else
      UpdateInstance st id
        (fun i => { i with status := "running", lastActivity := env.now })

/-- Concrete store for the dependency-gate theorems: aa depends on bb (still
running) and on an id that resolves to no stored instance. -/
def depWitnessState : State :=
  { repo := "", tmuxSession := "", instances :=
    [ { blankInstance with id := "aa", dependsOn := ["bb", "gone"] },
      { blankInstance with id := "bb", status := "running" } ] }

/-- Environment in which every kill system call succeeds.  In particular a
call with pid 0 succeeds on a real system: it targets the caller's own process
group, which always exists. -/
def allKillOkEnv : ProcEnv := { killOk := fun _ => true, now := 5 }

/-- Environment in which every kill system call fails (process absent). -/
def noKillEnv : ProcEnv := { killOk := fun _ => false, now := 9 }

/-- A paused instance whose recorded agent pid is zero (the zero value a
half-written or legacy record decodes to). -/
def pausedPidZero : Instance := { blankInstance with id := "aa", pid := 0, status := "paused" }

/-- Store holding only the paused zero-pid instance. -/
def pausedPidZeroState : State :=
  { repo := "", tmuxSession := "", instances := [pausedPidZero] }

/-- A running instance with positive pid 77. -/
def runningInst77 : Instance := { blankInstance with id := "aa", pid := 77, status := "running" }

/-- Store holding only the running pid-77 instance. -/
def runningState77 : State :=
  { repo := "", tmuxSession := "", instances := [runningInst77] }


/-! ## Instance creation with compensations (CreateInstance) -/

/-- One tmux pane as parsed from the pane-list format. -/
structure Pane where
  id : String
  pid : Int
  dead : Bool
deriving DecidableEq, Repr

/-- Fallback pane value used only for total indexing. -/
def defaultPane : Pane := { id := "", pid := 0, dead := false }

/-- Options of CreateInstance. -/
structure CreateOpts where
  name : String
  branch : String
  baseBranch : String
  initCommand : String
deriving DecidableEq, Repr

/-- Replies of the external tools for the calls CreateInstance performs, in
program order. -/
structure CreateEnv where
  nestedWorktree : Bool
  randBytes : Option (Fin 256 × Fin 256 × Fin 256)
  ensureSession : Except String String
  branchExists : Bool
  worktreeAddExisting : Except String Unit
  worktreeAddNew : Except String Unit
  newWindow : Except String String
  remainOnExit : Except String Unit
  listPanes1 : Except String (List Pane)
  sendKeysMain : Except String Unit
  listPanes2 : Except String (List Pane)
  sendKeysInit : Except String Unit
  now : Nat

/-- The external world CreateInstance mutates: the git worktree listing, the
windows of the session, and the persisted store. -/
structure World where
  worktrees : List String
  windows : List String
  store : State
deriving DecidableEq, Repr

/-- workspace.Manager.CreateInstance: validate, mint the id, derive the
worktree path, ensure the session, add the worktree, create the window, set
remain-on-exit, read the primary pane, launch the agent, read the pid, run the
optional init command, and only then write the store.  Every failure after
worktree creation removes the worktree (force); every failure after window
creation also kills the window. -/
def CreateInstance (repoRoot worktreeDir : String) (env : CreateEnv)
    (opts : CreateOpts) (w : World) : Except String Instance × World :=
  if opts.branch = "" then (.error "branch name cannot be empty", w)
  else if env.nestedWorktree then
    (.error "cannot create OCW instance inside a git worktree", w)
  else
    match env.randBytes with
    | none => (.error "failed to generate instance ID", w)
    | some bytes =>
      let id := GenerateID bytes
      let worktreePath := worktreePathOf repoRoot worktreeDir opts.branch
      match env.ensureSession with
      | .error e => (.error ("failed to ensure tmux session: " ++ e), w)
      | .ok _ =>
        match (if env.branchExists then env.worktreeAddExisting else env.worktreeAddNew) with
        | .error e => (.error ("failed to create worktree: " ++ e), w)
        | .ok _ =>
          let w1 := { w with worktrees := w.worktrees ++ [worktreePath] }
          let windowName := if opts.name = "" then opts.branch else opts.name
          match env.newWindow with
          | .error e => (.error ("failed to create tmux window: " ++ e),
              { w1 with worktrees := w1.worktrees.erase worktreePath })
          | .ok windowID =>
            let w2 := { w1 with windows := w1.windows ++ [windowID] }
            let cleanup : World → World := fun wx =>
              { wx with windows := wx.windows.erase windowID,
                        worktrees := wx.worktrees.erase worktreePath }
            match env.remainOnExit with
            | .error e => (.error ("failed to set remain-on-exit: " ++ e), cleanup w2)
            | .ok _ =>
              match env.listPanes1 with
              | .error e => (.error ("failed to get primary pane: " ++ e), cleanup w2)
              | .ok panes1 =>
                if panes1.length = 0 then
                  (.error "failed to get primary pane", cleanup w2)
                else
                  let primaryPaneID := (panes1.headD defaultPane).id
                  match env.sendKeysMain with
                  | .error e => (.error ("failed to launch opencode: " ++ e), cleanup w2)
                  | .ok _ =>
                    match env.listPanes2 with
                    | .error e => (.error ("failed to capture PID: " ++ e), cleanup w2)
                    | .ok panes2 =>
                      if panes2.length = 0 then
                        (.error "failed to capture PID", cleanup w2)
                      else
                        let pid := (panes2.headD defaultPane).pid
                        match (if opts.initCommand = "" then Except.ok () else env.sendKeysInit) with
                        | .error e => (.error ("failed to run init command: " ++ e), cleanup w2)
                        | .ok _ =>
                          let inst : Instance :=
                            { id := id, name := windowName, branch := opts.branch
                            , baseBranch := opts.baseBranch, worktreePath := worktreePath
                            , tmuxWindow := windowID, primaryPane := primaryPaneID
                            , subTerminals := [], pid := pid, port := 0
                            , status := "running", createdAt := env.now
                            , lastActivity := env.now, prUrl := ""
                            , conflictsWith := [], dependsOn := [] }
                          (.ok inst, { w2 with store := AddInstance w2.store inst })

/-- Environment for the C6 witness: every step up to window creation succeeds
and window creation fails. -/
def windowFailEnv : CreateEnv :=
  { nestedWorktree := false
  , randBytes := some (⟨1, by norm_num⟩, ⟨2, by norm_num⟩, ⟨3, by norm_num⟩)
  , ensureSession := .ok "ocw-repo"
  , branchExists := false
  , worktreeAddExisting := .ok ()
  , worktreeAddNew := .ok ()
  , newWindow := .error "boom"
  , remainOnExit := .ok ()
  , listPanes1 := .ok [{ id := "%1", pid := 42, dead := false }]
  , sendKeysMain := .ok ()
  , listPanes2 := .ok [{ id := "%1", pid := 43, dead := false }]
  , sendKeysInit := .ok ()
  , now := 7 }

/-- Pristine world for the C6 witness. -/
def emptyWorld : World := { worktrees := [], windows := [], store := blankState }

/-- Options for the C6 witness. -/
def createOptsX : CreateOpts :=
  { name := "", branch := "feat/x", baseBranch := "main", initCommand := "" }


/-! ## Startup reconciliation (Reconcile) -/

/-- Observed reality the reconciler reads: the git worktree listing, whether
the session exists (and its window listing succeeded), the window handles, the
zero-signal probe reply per pid, and the pane listing per window. -/
structure ReconEnv where
  worktreePaths : List String
  sessionExists : Bool
  windows : List String
  alive : Int → Bool
  panes : String → Except String (List Pane)

/-- An instance survives the scan when its worktree path appears in the git
worktree listing. -/
def reconKeep (env : ReconEnv) (i : Instance) : Bool :=
  env.worktreePaths.contains i.worktreePath

/-- A window is present when the session exists and the handle is listed. -/
def windowPresent (env : ReconEnv) (windowID : String) : Bool :=
  env.sessionExists && env.windows.contains windowID

/-- Reconcile pid check: the pid must be positive, then the zero-signal probe
(isProcessAlive, which itself rejects non-positive pids) decides. -/
def reconPidAlive (env : ReconEnv) (pid : Int) : Bool :=
  if 0 < pid then (if pid ≤ 0 then false else env.alive pid) else false

/-- Reconcile pane check: only when the window is present and the pane listing
succeeds, the first pane whose id equals the stored primary pane reports
pane_dead; otherwise false. -/
def paneDeadFor (env : ReconEnv) (inst : Instance) : Bool :=
  if windowPresent env inst.tmuxWindow then
    match env.panes inst.tmuxWindow with
    | .error _ => false
    | .ok panes =>
      match panes.find? (fun p => p.id == inst.primaryPane) with
      | none => false
      | some p => p.dead
  else false

/-- The reconcile decision for a surviving instance: the session-absent and
window-absent rows apply only to stored statuses running and paused; a
running instance is also marked on a dead pid or a dead pane. -/
def reconNeedsError (env : ReconEnv) (inst : Instance) : Bool :=
  (!env.sessionExists && (inst.status == "running" || inst.status == "paused")) ||
  (env.sessionExists && !(windowPresent env inst.tmuxWindow) &&
    (inst.status == "running" || inst.status == "paused")) ||
  (inst.status == "running" && !(reconPidAlive env inst.pid)) ||
  (paneDeadFor env inst && inst.status == "running")

/-- The status mutation recorded for a marked instance. -/
def reconErr (i : Instance) : Instance := { i with status := "error" }

/-- Removals applied first, through the store. -/
def applyRemovals (ids : List String) (st : State) : State :=
  ids.foldl (fun s id2 => RemoveInstance s id2) st

/-- Status mutations applied second, through the store; a failed update leaves
the store untouched and reconciliation continues. -/
def applyErrorUpdates (ids : List String) (st : State) : State :=
  ids.foldl (fun s id2 =>
    match UpdateInstance s id2 reconErr with
    | .ok s2 => s2
    | .error _ => s) st

/-- workspace.Manager.Reconcile, state transition part: scan every stored
instance, remove those whose worktree is gone, mark the others per the
decision table, then apply removals first and mutations second. -/
def Reconcile (env : ReconEnv) (st : State) : State :=
  applyErrorUpdates
    ((st.instances.filter (fun i => reconKeep env i)).filterMap
      (fun i => if reconNeedsError env i then some i.id else none))
    (applyRemovals
      ((st.instances.filter (fun i => !(reconKeep env i))).map Instance.id) st)

/-- Environment for the C1 theorems: the worktree /w is listed, the session is
gone. -/
def sessionGoneEnv : ReconEnv :=
  { worktreePaths := ["/w"], sessionExists := false, windows := []
  , alive := fun _ => false, panes := fun _ => .ok [] }

/-- An idle instance whose worktree is present. -/
def idleInstance : Instance :=
  { blankInstance with id := "aa", worktreePath := "/w", tmuxWindow := "@1",
                       status := "idle" }

/-- Store holding only the idle instance. -/
def idleState : State := { repo := "", tmuxSession := "", instances := [idleInstance] }

/-- A running instance whose worktree is present. -/
def runningWtInstance : Instance :=
  { blankInstance with id := "bb", worktreePath := "/w", tmuxWindow := "@9",
                       status := "running" }

/-- Store holding only the running instance. -/
def runningWtState : State :=
  { repo := "", tmuxSession := "", instances := [runningWtInstance] }


/-! ## Cross-instance conflict detection (conflicts.go) -/

/-- Modified-files map built per instance: a failed diff skips the instance
(its entry stays missing); a later instance with the same id overwrites. -/
def buildModifiedFiles (diff : String → String → Option (List String))
    (instances : List Instance) : String → Option (List String) :=
  instances.foldl (fun m inst =>
    match diff inst.baseBranch inst.branch with
    | none => m
    | some files => fun k => if k = inst.id then some files else m k)
    (fun _ => none)

/-- hasOverlap over possibly-missing file sets: a missing set never overlaps. -/
def hasOverlap (f1 f2 : Option (List String)) : Bool :=
  match f1 with
  | none => false
  | some l1 =>
    match f2 with
    | none => false
    | some l2 => l1.any (fun f => l2.contains f)

/-- Record one direction of a conflict: append b to the entry of a. -/
def addConflict (m : String → List String) (a b : String) : String → List String :=
  fun k => if k = a then m a ++ [b] else m k

/-- One iteration of the pair scan: skip i ≥ j, skip same-branch pairs, and on
overlap record the conflict in both directions. -/
def pairStep (instances : List Instance) (files : String → Option (List String))
    (m : String → List String) (p : Nat × Nat) : String → List String :=
  if p.2 ≤ p.1 then m
  else
    let inst1 := instances.getD p.1 blankInstance
    let inst2 := instances.getD p.2 blankInstance
    if inst1.branch = inst2.branch then m
    else if hasOverlap (files inst1.id) (files inst2.id) then
      addConflict (addConflict m inst1.id inst2.id) inst2.id inst1.id
    else m

/-- The index pairs of the double loop, in iteration order. -/
def pairIndices (n : Nat) : List (Nat × Nat) :=
  (List.range n).flatMap (fun i => (List.range n).map (fun j => (i, j)))

/-- ConflictDetector.DetectConflicts as the resulting id-to-conflicts map
(missing entries read as the empty list, as Go map lookups do). -/
def DetectConflicts (diff : String → String → Option (List String))
    (instances : List Instance) : String → List String :=
  (pairIndices instances.length).foldl
    (pairStep instances (buildModifiedFiles diff instances)) (fun _ => [])

/-- ConflictDetector.UpdateInstanceConflicts: write each instance's entry of
the detected map into its conflicts_with field, stopping on the first store
error. -/
def UpdateInstanceConflicts (diff : String → String → Option (List String))
    (st : State) (instances : List Instance) : Except String State :=
  instances.foldlM (fun s inst =>
    UpdateInstance s inst.id
      (fun i => { i with conflictsWith := DetectConflicts diff instances inst.id })) st

/-- Diff environment for the C4 witness: the two branches both touch f.txt. -/
def overlapDiff : String → String → Option (List String) :=
  fun _ branch => if branch = "b1" ∨ branch = "b2" then some ["f.txt"] else some []

/-- Two instances on different branches for the C4 witness. -/
def conflictState : State :=
  { repo := "", tmuxSession := ""
  , instances :=
    [ { blankInstance with id := "aa", branch := "b1", baseBranch := "main" },
      { blankInstance with id := "bb", branch := "b2", baseBranch := "main" } ] }


/-- What one qualifying loop pair records: indices in loop order, distinct
branches, overlapping file sets, and the two ids in either orientation. -/
def pairRecords (instances : List Instance) (files : String → Option (List String))
    (p : Nat × Nat) (y x : String) : Prop :=
  p.1 < p.2 ∧
  (instances.getD p.1 blankInstance).branch ≠ (instances.getD p.2 blankInstance).branch ∧
  hasOverlap (files (instances.getD p.1 blankInstance).id)
    (files (instances.getD p.2 blankInstance).id) = true ∧
  ((y = (instances.getD p.1 blankInstance).id ∧ x = (instances.getD p.2 blankInstance).id) ∨
   (y = (instances.getD p.2 blankInstance).id ∧ x = (instances.getD p.1 blankInstance).id))


/-! ## Dependency graph and cycle detection (dependencies.go) -/

/-- The three DFS marks of hasCycle (white unvisited, gray on stack, black
finalised). -/
inductive Color
  | white
  | gray
  | black
deriving DecidableEq, Repr

/-- Pointwise color-map update. -/
def setColor (c : String → Color) (v : String) (col : Color) : String → Color :=
  fun k => if k = v then col else c k

/-- Membership in the id set the detector builds. -/
def idMem (instances : List Instance) (v : String) : Bool :=
  (instances.map Instance.id).contains v

/-- The dependency list the detector reads for an id: the last stored instance
with that id wins, ids without an instance read as empty (Go map defaults). -/
def depsOf (instances : List Instance) (v : String) : List String :=
  match lookupLast instances v with
  | some i => i.dependsOn
  | none => []

/-- The DFS of hasCycle, fuelled: an inl task visits a vertex (mark gray, scan
its dependency list, mark black), an inr task scans a dependency list
(skipping ids outside the set, aborting on a gray target, descending into a
white target).  Exhausted fuel conservatively reports a cycle; the fuel chosen
below exceeds the maximal nesting depth of the recursion. -/
def dfsGo (instances : List Instance) :
    Nat → (String → Color) → (String ⊕ List String) → Bool × (String → Color)
  | 0, c, _ => (true, c)
  | fuel + 1, c, task =>
    match task with
    | .inl v =>
      match dfsGo instances fuel (setColor c v .gray) (.inr (depsOf instances v)) with
      | (true, c2) => (true, c2)
      | (false, c2) => (false, setColor c2 v .black)
    | .inr [] => (false, c)
    | .inr (d :: ds) =>
      if idMem instances d then
        if c d = .gray then (true, c)
        else if c d = .white then
          match dfsGo instances fuel c (.inl d) with
          | (true, c2) => (true, c2)
          | (false, c2) => dfsGo instances fuel c2 (.inr ds)
        else dfsGo instances fuel c (.inr ds)
      else dfsGo instances fuel c (.inr ds)

/-- Fuel exceeding the maximal nesting depth: every stack level belongs to
some instance's visit or scan, each contributing at most 2 + its dependency
count. -/
def dfsFuel (instances : List Instance) : Nat :=
  instances.foldl (fun acc i => acc + i.dependsOn.length + 2) 2

/-- Outer loop of hasCycle: run the DFS from every still-white id. -/
def hasCycleLoop (instances : List Instance) :
    (String → Color) → List String → Bool
  | _, [] => false
  | c, v :: vs =>
    if c v = .white then
      match dfsGo instances (dfsFuel instances) c (.inl v) with
      | (true, _) => true
      | (false, c2) => hasCycleLoop instances c2 vs
    else hasCycleLoop instances c vs

/-- workspace.hasCycle: three-colour DFS over the instance dependency graph. -/
def hasCycle (instances : List Instance) : Bool :=
  hasCycleLoop instances (fun _ => .white) (instances.map Instance.id)

/-- Mutate the last instance with the given id (the Go loop keeps the pointer
of the last match); the list is unchanged when the id is absent. -/
def updateLast (fn : Instance → Instance) (id : String) (l : List Instance) :
    List Instance :=
  match updateFirst fn id l.reverse with
  | some r => r.reverse
  | none => l

/-- workspace.Manager.AddDependency: forbid self-edges, missing endpoints and
duplicate edges, append the edge, reject when the grown graph has a cycle, and
only then save.  An error result leaves the persisted store unchanged (Save is
never reached). -/
def AddDependency (st : State) (instanceID dependsOnID : String) :
    Except String State :=
  if instanceID = dependsOnID then
    .error "an instance cannot depend on itself"
  else
    match lookupLast st.instances instanceID with
    | none => .error ("instance " ++ instanceID ++ " not found")
    | some inst =>
      if (st.instances.map Instance.id).contains dependsOnID = false then
        .error ("dependency instance " ++ dependsOnID ++ " not found")
      else if inst.dependsOn.contains dependsOnID then
        .error "dependency already exists"
      else
        let newInstances := updateLast
          (fun i => { i with dependsOn := i.dependsOn ++ [dependsOnID] })
          instanceID st.instances
        if hasCycle newInstances then
          .error "adding this dependency would create a circular dependency"
        else
          .ok { st with instances := newInstances }

/-- The edge relation the detector traverses: both endpoints in the id set and
the target among the source's dependencies. -/
def Edge (instances : List Instance) (u v : String) : Prop :=
  idMem instances u = true ∧ idMem instances v = true ∧ v ∈ depsOf instances u

/-- Ranking invariant of the DFS: black vertices only point (in the graph) at
black vertices of strictly smaller rank. -/
def DfsInv (instances : List Instance) (c : String → Color) : Prop :=
  ∃ rank : String → Nat, ∀ u d, c u = Color.black → Edge instances u d →
    c d = Color.black ∧ rank d < rank u

/-- Store with two independent instances for the dependency witnesses. -/
def depPairState : State :=
  { repo := "", tmuxSession := ""
  , instances :=
    [ { blankInstance with id := "aa" },
      { blankInstance with id := "bb" } ] }

/-- Store in which aa already depends on bb. -/
def depChainState : State :=
  { repo := "", tmuxSession := ""
  , instances :=
    [ { blankInstance with id := "aa", dependsOn := ["bb"] },
      { blankInstance with id := "bb" } ] }

/-! ## Theorems -/

theorem hexDigit_isLowerHex (n : Nat) (h : n < 16) : isLowerHex (hexDigit n) = true := by
  interval_cases n <;> decide

theorem hexByte_length (b : Fin 256) : (hexByte b).length = 2 := rfl

theorem hexByte_isLowerHex (b : Fin 256) :
    ∀ c ∈ hexByte b, isLowerHex c = true := by
  intro c hc
  have h1 : b.val / 16 < 16 := Nat.div_lt_of_lt_mul b.isLt
  have h2 : b.val % 16 < 16 := Nat.mod_lt _ (by norm_num)
  simp only [hexByte, List.mem_cons, List.not_mem_nil, or_false] at hc
  rcases hc with h | h
  · exact h ▸ hexDigit_isLowerHex _ h1
  · exact h ▸ hexDigit_isLowerHex _ h2

/-- C2 — The claim says the store's add operation mints a six-hex-char id when
the supplied id is empty and never persists an empty id.  Concretely adding a
record whose id is empty persists that record unchanged: the stored id is the
empty string, not a minted one. -/
theorem AddInstance_keeps_empty_id_counterexample :
    (AddInstance blankState blankInstance).instances = [blankInstance] ∧
    blankInstance.id = "" :=
  ⟨rfl, rfl⟩

/-- C2 (amended) — The store's add operation persists the record exactly as
supplied (in particular an empty id stays empty); id minting is done separately
by GenerateID, which renders three cryptographic random bytes as six lowercase
hexadecimal characters. -/
theorem AddInstance_no_minting_and_GenerateID_shape :
    (∀ (st : State) (inst : Instance),
      (AddInstance st inst).instances.map Instance.id
        = st.instances.map Instance.id ++ [inst.id]) ∧
    (∀ bytes : Fin 256 × Fin 256 × Fin 256,
      (GenerateID bytes).length = 6 ∧
      ∀ c ∈ (GenerateID bytes).data, isLowerHex c = true) := by
  refine ⟨fun st inst => by simp [AddInstance], fun bytes => ⟨rfl, ?_⟩⟩
  intro c hc
  have : c ∈ hexByte bytes.1 ++ hexByte bytes.2.1 ++ hexByte bytes.2.2 := hc
  rcases List.mem_append.mp this with h | h
  · rcases List.mem_append.mp h with h1 | h1
    · exact hexByte_isLowerHex _ _ h1
    · exact hexByte_isLowerHex _ _ h1
  · exact hexByte_isLowerHex _ _ h

/-- Membership in a dropWhile result implies membership in the original list. -/
theorem mem_of_mem_dropWhile {p : Char → Bool} {l : List Char} {c : Char}
    (h : c ∈ l.dropWhile p) : c ∈ l := by
  induction l with
  | nil => simp [List.dropWhile] at h
  | cons hd tl ih =>
    rw [List.dropWhile] at h
    by_cases hp : p hd
    · simp only [hp] at h
      exact List.mem_cons_of_mem _ (ih h)
    · simp only [Bool.not_eq_true] at hp
      simp only [hp] at h
      exact h

/-- Membership in a trimmed list implies membership in the original list. -/
theorem mem_of_mem_trimChars {cut : List Char} {l : List Char} {c : Char}
    (h : c ∈ trimChars cut l) : c ∈ l := by
  unfold trimChars at h
  rw [List.mem_reverse] at h
  have h2 := mem_of_mem_dropWhile h
  rw [List.mem_reverse] at h2
  exact mem_of_mem_dropWhile h2

/-- The head of a dropWhile result does not satisfy the predicate. -/
theorem head?_dropWhile_not {p : Char → Bool} {l : List Char} {c : Char}
    (h : (l.dropWhile p).head? = some c) : p c = false := by
  induction l with
  | nil => simp [List.dropWhile] at h
  | cons hd tl ih =>
    rw [List.dropWhile] at h
    by_cases hp : p hd
    · simp only [hp] at h
      exact ih h
    · simp only [Bool.not_eq_true] at hp
      simp only [hp, List.head?] at h
      cases h
      exact hp

/-- The first character of a trimmed list is not in the cut set. -/
theorem trimChars_head (cut : List Char) (l : List Char) (c : Char)
    (h : (trimChars cut l).head? = some c) : cut.contains c = false := by
  unfold trimChars at h
  rw [List.head?_reverse] at h
  have hsuff : (l.dropWhile (fun c => cut.contains c)).reverse.dropWhile
      (fun c => cut.contains c) <:+ (l.dropWhile (fun c => cut.contains c)).reverse :=
    List.dropWhile_suffix _
  obtain ⟨t, ht⟩ := hsuff
  by_cases hne : (l.dropWhile (fun c => cut.contains c)).reverse.dropWhile
      (fun c => cut.contains c) = []
  · rw [hne] at h
    simp at h
  · have : ((l.dropWhile (fun c => cut.contains c)).reverse).getLast? = some c := by
      rw [← ht, List.getLast?_append, h]
      rfl
    rw [List.getLast?_reverse] at this
    exact head?_dropWhile_not this

/-- The last character of a trimmed list is not in the cut set. -/
theorem trimChars_getLast (cut : List Char) (l : List Char) (c : Char)
    (h : (trimChars cut l).getLast? = some c) : cut.contains c = false := by
  unfold trimChars at h
  rw [List.getLast?_reverse] at h
  exact head?_dropWhile_not h

/-- C7 — The claim says runs of consecutive non-alphanumeric characters in the
repository base name collapse to a single hyphen.  The code replaces each such
character by its own hyphen: for base name "my..repo" the code produces
"ocw-my--repo" while the claimed sanitisation gives "ocw-my-repo". -/
theorem SessionName_run_collapse_counterexample :
    SessionName "ocw" "/home/u/my..repo" = "ocw-my--repo" ∧
    specSessionName "ocw" "/home/u/my..repo" = "ocw-my-repo" ∧
    SessionName "ocw" "/home/u/my..repo" ≠ specSessionName "ocw" "/home/u/my..repo" := by
  refine ⟨by decide, by decide, by decide⟩

/-- C7 (amended) — The session name is prefix-hyphen-sanitised base name, where
sanitisation replaces each non-alphanumeric character individually by a hyphen
(runs are not collapsed), trims hyphens from both ends, and falls back to
"repo" when nothing remains; the result is nonempty, contains only
alphanumerics and hyphens, and neither starts nor ends with a hyphen. -/
theorem SessionName_shape (pre path : String) :
    SessionName pre path = pre ++ "-" ++ extractRepoName path ∧
    extractRepoName path ≠ "" ∧
    (∀ c ∈ (extractRepoName path).data, isAlnumGo c = true ∨ c = '-') ∧
    (∀ c, (extractRepoName path).data.head? = some c → c ≠ '-') ∧
    (∀ c, (extractRepoName path).data.getLast? = some c → c ≠ '-') := by
  refine ⟨rfl, ?_, ?_, ?_, ?_⟩
  · simp only [extractRepoName]
    split
    · decide
    · rename_i ht
      intro h
      exact ht (congrArg String.data h)
  · intro c hc
    simp only [extractRepoName] at hc
    split at hc
    · fin_cases hc <;> decide
    · have hmem := mem_of_mem_trimChars hc
      rcases List.mem_map.mp hmem with ⟨d, _, hd⟩
      by_cases ha : isAlnumGo d
      · left
        rw [if_pos ha] at hd
        exact hd ▸ ha
      · right
        simp [ha] at hd
        exact hd.symm
  · intro c hc
    simp only [extractRepoName] at hc
    split at hc
    · simp only [show ("repo" : String).data = ['r', 'e', 'p', 'o'] from rfl,
        List.head?] at hc
      cases hc
      decide
    · have := trimChars_head ['-'] _ _ hc
      simp at this
      exact this
  · intro c hc
    simp only [extractRepoName] at hc
    split at hc
    · simp only [show ("repo" : String).data = ['r', 'e', 'p', 'o'] from rfl] at hc
      rw [show (['r', 'e', 'p', 'o'] : List Char).getLast? = some 'o' from rfl] at hc
      cases hc
      decide
    · have := trimChars_getLast ['-'] _ _ hc
      simp at this
      exact this

/-- Concrete instantiation of the amended C7 theorem: the sanitised name for
"/home/u/proj" is nonempty and its first character, p, is not a hyphen. -/
theorem SessionName_shape_witness :
    extractRepoName "/home/u/proj" ≠ "" ∧ 'p' ≠ '-' :=
  ⟨(SessionName_shape "ocw" "/home/u/proj").2.1,
   (SessionName_shape "ocw" "/home/u/proj").2.2.2.1 'p' (by decide)⟩

/-- C8 — The claim describes sanitisation as stripping leading hyphens and
periods; the code trims them from both ends as well.  For branch name "x-" the
code derives .../x while the claimed recipe derives .../x-. -/
theorem sanitizeBranchName_trailing_counterexample :
    worktreePathOf "/repo" ".worktrees" "x-" = "/repo/.worktrees/x" ∧
    specSanitizeBranchC8 "x-" = "x-" ∧
    worktreePathOf "/repo" ".worktrees" "x-"
      ≠ "/repo/.worktrees/" ++ specSanitizeBranchC8 "x-" := by
  refine ⟨by decide, by decide, by decide⟩

/-- C8 (amended) — The worktree path is repo/worktree-dir/sanitised-branch,
where sanitisation maps slash to hyphen and every character outside
[A-Za-z0-9_.-] to hyphen, strips hyphens and periods from both the start and
the end, and falls back to "branch" when empty; the resulting component is
nonempty and contains only characters from the class. -/
theorem worktreePathOf_shape (repo dir branch : String) :
    worktreePathOf repo dir branch = joinPath [repo, dir, sanitizeBranchName branch] ∧
    sanitizeBranchName branch ≠ "" ∧
    (∀ c ∈ (sanitizeBranchName branch).data, branchAllowed c = true) ∧
    (∀ c, (sanitizeBranchName branch).data.head? = some c → c ≠ '-' ∧ c ≠ '.') ∧
    (∀ c, (sanitizeBranchName branch).data.getLast? = some c → c ≠ '-' ∧ c ≠ '.') ∧
    (repo ≠ "" → dir ≠ "" →
      worktreePathOf repo dir branch = repo ++ "/" ++ dir ++ "/" ++ sanitizeBranchName branch) := by
  refine ⟨rfl, ?_, ?_, ?_, ?_, ?_⟩
  · simp only [sanitizeBranchName]
    split
    · decide
    · rename_i ht
      intro h
      exact ht (congrArg String.data h)
  · intro c hc
    simp only [sanitizeBranchName] at hc
    split at hc
    · fin_cases hc <;> decide
    · have hmem := mem_of_mem_trimChars hc
      rcases List.mem_map.mp hmem with ⟨d, _, hd⟩
      by_cases ha : branchAllowed d
      · rw [if_pos ha] at hd
        exact hd ▸ ha
      · simp only [ha, if_false, Bool.false_eq_true] at hd
        rw [← hd]
        decide
  · intro c hc
    simp only [sanitizeBranchName] at hc
    split at hc
    · simp only [show ("branch" : String).data = ['b', 'r', 'a', 'n', 'c', 'h'] from rfl,
        List.head?] at hc
      cases hc
      decide
    · have := trimChars_head ['-', '.'] _ _ hc
      simp only [List.contains_cons, List.contains_nil, Bool.or_false,
        Bool.or_eq_false_iff, beq_eq_false_iff_ne] at this
      exact this
  · intro c hc
    simp only [sanitizeBranchName] at hc
    split at hc
    · simp only [show ("branch" : String).data = ['b', 'r', 'a', 'n', 'c', 'h'] from rfl] at hc
      rw [show (['b', 'r', 'a', 'n', 'c', 'h'] : List Char).getLast? = some 'h' from rfl] at hc
      cases hc
      decide
    · have := trimChars_getLast ['-', '.'] _ _ hc
      simp only [List.contains_cons, List.contains_nil, Bool.or_false,
        Bool.or_eq_false_iff, beq_eq_false_iff_ne] at this
      exact this
  · intro hr hd
    have hs : sanitizeBranchName branch ≠ "" := by
      simp only [sanitizeBranchName]
      split
      · decide
      · rename_i ht
        intro h
        exact ht (congrArg String.data h)
    simp only [worktreePathOf, joinPath]
    rw [List.filter_eq_self.mpr ?_]
    · simp [joinNonEmpty, String.append_assoc]
    · intro a ha
      fin_cases ha <;> simp [hr, hd, hs]

/-- Concrete instantiation of the amended C8 theorem for branch "feat/x y-":
the hypotheses of the path-concatenation conjunct hold for "/repo" and
".worktrees". -/
theorem worktreePathOf_shape_witness :
    sanitizeBranchName "feat/x y-" ≠ "" ∧
    worktreePathOf "/repo" ".worktrees" "feat/x y-"
      = "/repo" ++ "/" ++ ".worktrees" ++ "/" ++ sanitizeBranchName "feat/x y-" :=
  ⟨(worktreePathOf_shape "/repo" ".worktrees" "feat/x y-").2.1,
   (worktreePathOf_shape "/repo" ".worktrees" "feat/x y-").2.2.2.2.2
     (by decide) (by decide)⟩

theorem find?_append_my (p : String → Bool) (l1 l2 : List String) :
    (l1 ++ l2).find? p
      = match l1.find? p with
        | some a => some a
        | none => l2.find? p := by
  induction l1 with
  | nil => rfl
  | cons x xs ih =>
    by_cases hx : p x
    · simp [List.find?, hx]
    · simp only [Bool.not_eq_true] at hx
      simp [List.find?, hx, ih]

theorem splitNl_ne_nil (l : List Char) : splitNl l ≠ [] := by
  cases l with
  | nil => simp [splitNl]
  | cons c rest =>
    simp only [splitNl]
    cases splitNl rest with
    | nil => simp
    | cons grp groups =>
      by_cases hc : c = '\n' <;> simp [hc]

/-- Characterisation of the backwards scan: a hit is an "http"-prefixed member
after which every later line is not "http"-prefixed; a miss means no line is
"http"-prefixed. -/
theorem lastHttpLine_spec (lines : List String) :
    (∀ u, lastHttpLine lines = some u →
      startsWithHttp u = true ∧
      ∃ pre post, lines = pre ++ u :: post ∧
        ∀ l ∈ post, startsWithHttp l = false) ∧
    (lastHttpLine lines = none → ∀ l ∈ lines, startsWithHttp l = false) := by
  induction lines with
  | nil => exact ⟨(fun u h => nomatch h), (fun _ l hl => nomatch hl)⟩
  | cons x xs ih =>
    have hcons : lastHttpLine (x :: xs)
        = match lastHttpLine xs with
          | some a => some a
          | none => if startsWithHttp x then some x else none := by
      unfold lastHttpLine
      rw [List.reverse_cons, find?_append_my]
      cases xs.reverse.find? (fun l => startsWithHttp l) with
      | none =>
        by_cases hx : startsWithHttp x <;> simp [List.find?, hx]
      | some a => rfl
    constructor
    · intro u hu
      rw [hcons] at hu
      cases hxs : lastHttpLine xs with
      | some a =>
        rw [hxs] at hu
        cases hu
        obtain ⟨hp, pre, post, heq, hpost⟩ := ih.1 u hxs
        exact ⟨hp, x :: pre, post, by rw [heq, List.cons_append], hpost⟩
      | none =>
        rw [hxs] at hu
        by_cases hx : startsWithHttp x
        · rw [if_pos hx] at hu
          cases hu
          exact ⟨hx, [], xs, rfl, ih.2 hxs⟩
        · rw [if_neg hx] at hu
          cases hu
    · intro hnone l hl
      rw [hcons] at hnone
      cases hxs : lastHttpLine xs with
      | some a => rw [hxs] at hnone; cases hnone
      | none =>
        rw [hxs] at hnone
        rcases List.mem_cons.mp hl with rfl | hmem
        · by_cases hx : startsWithHttp l
          · rw [if_pos hx] at hnone; cases hnone
          · simpa using hx
        · exact ih.2 hxs l hmem

/-- C9 — The claim says publication fails when no "http"-prefixed line exists
in the tool output.  For the github tool the code then returns the trimmed
last line without failing: on output with no http line it answers ok "done". -/
theorem extractGhURL_no_http_counterexample :
    extractGhURL "Creating pull request\ndone" = .ok "done" ∧
    lastHttpLine (splitLines (goTrimSpace "Creating pull request\ndone")) = none := by
  constructor
  · rfl
  · rfl

/-- C9 (amended) — For the gitlab tool the URL is the trimmed last
"http"-prefixed raw line of the combined output and extraction fails when no
such line exists, as claimed.  For the github tool the trimmed last line is
returned when it starts with "http"; otherwise the last "http"-prefixed raw
line is returned; otherwise the trimmed last line is returned without any
failure. -/
theorem extractURL_behaviour (out : String) :
    (∀ u, lastHttpLine (splitLines (goTrimSpace out)) = some u →
      extractGlabURL out = .ok (goTrimSpace u)) ∧
    (lastHttpLine (splitLines (goTrimSpace out)) = none →
      extractGlabURL out
        = .error ("could not find MR URL in glab output: " ++ out)) ∧
    (startsWithHttp (goTrimSpace ((splitLines (goTrimSpace out)).getLastD "")) = true →
      extractGhURL out = .ok (goTrimSpace ((splitLines (goTrimSpace out)).getLastD ""))) ∧
    (startsWithHttp (goTrimSpace ((splitLines (goTrimSpace out)).getLastD "")) = false →
      ∀ u, lastHttpLine (splitLines (goTrimSpace out)) = some u →
        extractGhURL out = .ok (goTrimSpace u)) ∧
    (startsWithHttp (goTrimSpace ((splitLines (goTrimSpace out)).getLastD "")) = false →
      lastHttpLine (splitLines (goTrimSpace out)) = none →
      extractGhURL out = .ok (goTrimSpace ((splitLines (goTrimSpace out)).getLastD ""))) := by
  have hne : (splitLines (goTrimSpace out)).length ≠ 0 := by
    have h2 : splitLines (goTrimSpace out) ≠ [] := by
      unfold splitLines
      intro h
      exact splitNl_ne_nil _ (List.map_eq_nil_iff.mp h)
    simpa [List.length_eq_zero] using h2
  refine ⟨?_, ?_, ?_, ?_, ?_⟩
  · intro u hu
    unfold extractGlabURL
    rw [if_neg hne, hu]
  · intro hnone
    unfold extractGlabURL
    rw [if_neg hne, hnone]
  · intro hpre
    unfold extractGhURL
    rw [if_neg hne]
    simp only [hpre, if_true]
  · intro hpre u hu
    unfold extractGhURL
    rw [if_neg hne]
    simp only [hpre, Bool.false_eq_true, if_false, hu]
  · intro hpre hnone
    unfold extractGhURL
    rw [if_neg hne]
    simp only [hpre, Bool.false_eq_true, if_false, hnone]

/-- Concrete instantiation of the amended C9 theorem: on a two-line output
whose second line is an URL, the github extraction returns that URL, and on
the same output the gitlab extraction returns it too. -/
theorem extractURL_behaviour_witness :
    extractGhURL "ok\nhttps://x/pr/1" = .ok "https://x/pr/1" ∧
    extractGlabURL "ok\nhttps://x/pr/1" = .ok "https://x/pr/1" :=
  ⟨(extractURL_behaviour "ok\nhttps://x/pr/1").2.2.1 (by decide),
   (extractURL_behaviour "ok\nhttps://x/pr/1").1 "https://x/pr/1" (by decide)⟩

/-- Elements of lookupLast results are stored instances with the looked-up id. -/
theorem lookupLast_mem {insts : List Instance} {id : String} {inst : Instance}
    (h : lookupLast insts id = some inst) : inst ∈ insts ∧ inst.id = id := by
  unfold lookupLast at h
  have h1 := List.mem_of_find?_eq_some h
  have h2 := List.find?_some h
  rw [List.mem_reverse] at h1
  exact ⟨h1, by simpa using h2⟩

/-- C10 — Every id in the unmerged list returned by CheckDependenciesMerged
resolves to an instance currently in the store (with a status that is neither
merged nor done); consequently a prerequisite whose record has been deleted
never appears in the list and never blocks the merge gate. -/
theorem CheckDependenciesMerged_skips_deleted (st : State) (instanceID : String)
    (result : List String)
    (h : CheckDependenciesMerged st instanceID = .ok result) :
    ∀ d ∈ result, ∃ inst, inst ∈ st.instances ∧ inst.id = d ∧
      inst.status ≠ "merged" ∧ inst.status ≠ "done" := by
  intro d hd
  unfold CheckDependenciesMerged at h
  cases hfind : lookupLast st.instances instanceID with
  | none => rw [hfind] at h; cases h
  | some inst =>
    rw [hfind] at h
    cases h
    have hmem := List.mem_filter.mp hd
    cases hdep : lookupLast st.instances d with
    | none =>
      rw [hdep] at hmem
      simp at hmem
    | some dep =>
      have hpred := hmem.2
      rw [hdep] at hpred
      simp only [Bool.and_eq_true, decide_eq_true_eq] at hpred
      obtain ⟨hin, hid⟩ := lookupLast_mem hdep
      exact ⟨dep, hin, hid, hpred.1, hpred.2⟩

/-- Concrete instantiation of the C10 theorem: for the store in which aa
depends on bb and on a deleted id, the returned unmerged list is exactly bb,
and bb resolves to a stored unmerged instance. -/
theorem CheckDependenciesMerged_skips_deleted_witness :
    ∃ inst, inst ∈ depWitnessState.instances ∧ inst.id = "bb" ∧
      inst.status ≠ "merged" ∧ inst.status ≠ "done" :=
  CheckDependenciesMerged_skips_deleted depWitnessState "aa" ["bb"] rfl "bb"
    (by decide)

/-- Splitting lemma: a successful first-match find yields a decomposition on
which updateFirst rewrites exactly the found element. -/
theorem find_update_split (fn : Instance → Instance) (id : String) :
    ∀ (insts : List Instance) (inst : Instance),
      insts.find? (fun i => i.id == id) = some inst →
      ∃ pre post, insts = pre ++ inst :: post ∧
        (∀ i ∈ pre, (i.id == id) = false) ∧
        updateFirst fn id insts = some (pre ++ fn inst :: post) := by
  intro insts
  induction insts with
  | nil => intro inst h; cases h
  | cons x xs ih =>
    intro inst h
    by_cases hx : (x.id == id) = true
    · simp only [List.find?, hx] at h
      cases h
      refine ⟨[], xs, rfl, (fun i hi => nomatch hi), ?_⟩
      simp [updateFirst, hx]
    · have hx2 : (x.id == id) = false := by
        simpa using hx
      simp only [List.find?, hx2] at h
      obtain ⟨pre, post, heq, hpre, hupd⟩ := ih inst h
      refine ⟨x :: pre, post, by rw [heq, List.cons_append], ?_, ?_⟩
      · intro i hi
        rcases List.mem_cons.mp hi with rfl | hmem
        · exact hx2
        · exact hpre i hmem
      · simp [updateFirst, hx2, hupd]

/-- C3 (amended) — Pause fails with the not-running error and the persisted
store unchanged whenever the zero-signal probe reports the stored pid absent.
Resume makes no probe: it sends the continue signal directly, so for a
positive stored pid it fails exactly when the probe would report absent (store
unchanged), while a successful signal sets status running and refreshes
last_activity; a successful probe lets pause set status paused. -/
theorem PauseResume_probe_behaviour (env : ProcEnv) (st : State) (id : String)
    (inst : Instance) (hfind : findInstance st id = some inst) :
    (isProcessAlive env inst.pid = false →
      PauseInstance env st id = .error "process is not running") ∧
    (0 < inst.pid → env.killOk inst.pid = false →
      ResumeInstance env st id = .error "failed to resume process" ∧
      isProcessAlive env inst.pid = false) ∧
    (isProcessAlive env inst.pid = true →
      ∃ pre post, st.instances = pre ++ inst :: post ∧
        PauseInstance env st id
          = .ok { st with instances := pre ++ { inst with status := "paused" } :: post }) ∧
    (env.killOk inst.pid = true →
      ∃ pre post, st.instances = pre ++ inst :: post ∧
        ResumeInstance env st id
          = .ok { st with instances :=
              pre ++ { inst with status := "running", lastActivity := env.now } :: post }) := by
  refine ⟨?_, ?_, ?_, ?_⟩
  · intro hdead
    simp only [PauseInstance, hfind, hdead]
    simp
  · intro hpos hko
    refine ⟨by simp only [ResumeInstance, hfind, hko]; simp, ?_⟩
    unfold isProcessAlive
    rw [if_neg (by omega), hko]
  · intro halive
    obtain ⟨pre, post, heq, hpre, hupd⟩ :=
      find_update_split (fun i => { i with status := "paused" }) id st.instances inst hfind
    refine ⟨pre, post, heq, ?_⟩
    have hko : env.killOk inst.pid = true := by
      unfold isProcessAlive at halive
      by_cases hp : inst.pid ≤ 0
      · rw [if_pos hp] at halive
        cases halive
      · rwa [if_neg hp] at halive
    simp only [PauseInstance, hfind, halive, hko, UpdateInstance, hupd]
    simp
  · intro hko
    obtain ⟨pre, post, heq, hpre, hupd⟩ :=
      find_update_split (fun i => { i with status := "running", lastActivity := env.now })
        id st.instances inst hfind
    refine ⟨pre, post, heq, ?_⟩
    simp only [ResumeInstance, hfind, hko, UpdateInstance, hupd]
    simp

/-- Concrete instantiation of the amended C3 theorem: with every kill call
failing, pause on the running pid-77 instance reports not-running and resume
reports the signal failure. -/
theorem PauseResume_probe_behaviour_witness :
    PauseInstance noKillEnv runningState77 "aa" = .error "process is not running" ∧
    ResumeInstance noKillEnv runningState77 "aa" = .error "failed to resume process" :=
  ⟨(PauseResume_probe_behaviour noKillEnv runningState77 "aa" runningInst77 rfl).1
     (by decide),
   ((PauseResume_probe_behaviour noKillEnv runningState77 "aa" runningInst77 rfl).2.1
     (by decide) (by decide)).1⟩

/-- C3 — The claim says resume fails with a not-alive error whenever the
zero-signal probe reports the stored pid absent.  The code never probes in
resume: for the paused record with pid 0 the probe reports absent, yet the
continue signal (which targets the process group for pid 0 and succeeds)
makes resume succeed and mark the instance running. -/
theorem ResumeInstance_no_probe_counterexample :
    isProcessAlive allKillOkEnv pausedPidZero.pid = false ∧
    ResumeInstance allKillOkEnv pausedPidZeroState "aa"
      = .ok { pausedPidZeroState with instances :=
          [ { pausedPidZero with status := "running", lastActivity := 5 } ] } :=
  ⟨rfl, rfl⟩

/-- Appending an element absent from a list and erasing it restores the list. -/
theorem erase_appended (l : List String) (p : String) (h : p ∉ l) :
    (l ++ [p]).erase p = l := by
  rw [List.erase_append_right _ (by simpa using h), List.erase_cons_head,
    List.append_nil]

/-- C6 — When the multiplexer window-creation step, or any later step before
the store write, fails during create, the already-created worktree is removed,
the window (when created) is killed, the persisted store and the external
world return to their pre-create contents, and an error wrapping the failing
tool invocation is surfaced; in the window-creation case the surfaced error is
exactly the wrap of the tool error. -/
theorem CreateInstance_rollback (repoRoot worktreeDir : String) (env : CreateEnv)
    (opts : CreateOpts) (w : World)
    (hbr : ¬ opts.branch = "")
    (hnest : env.nestedWorktree = false)
    (hrand : ∃ b, env.randBytes = some b)
    (hsess : ∃ s, env.ensureSession = Except.ok s)
    (hadd : (if env.branchExists then env.worktreeAddExisting
              else env.worktreeAddNew) = Except.ok ())
    (hpath : worktreePathOf repoRoot worktreeDir opts.branch ∉ w.worktrees)
    (hwid : ∀ wid, env.newWindow = Except.ok wid → wid ∉ w.windows)
    (hfail : (∃ e, env.newWindow = .error e) ∨ (∃ e, env.remainOnExit = .error e) ∨
      (∃ e, env.listPanes1 = .error e) ∨ env.listPanes1 = .ok [] ∨
      (∃ e, env.sendKeysMain = .error e) ∨ (∃ e, env.listPanes2 = .error e) ∨
      env.listPanes2 = .ok [] ∨
      (¬ opts.initCommand = "" ∧ ∃ e, env.sendKeysInit = .error e)) :
    (∃ msg, CreateInstance repoRoot worktreeDir env opts w = (.error msg, w)) ∧
    (∀ e, env.newWindow = .error e →
      CreateInstance repoRoot worktreeDir env opts w
        = (.error ("failed to create tmux window: " ++ e), w)) := by
  obtain ⟨bytes, hbytes⟩ := hrand
  obtain ⟨sess, hs⟩ := hsess
  have herase : (w.worktrees ++ [worktreePathOf repoRoot worktreeDir opts.branch]).erase
      (worktreePathOf repoRoot worktreeDir opts.branch) = w.worktrees :=
    erase_appended _ _ hpath
  have hwin : ∀ wid, wid ∉ w.windows → (w.windows ++ [wid]).erase wid = w.windows :=
    fun wid hn => erase_appended _ _ hn
  cases hnw : env.newWindow with
  | error e =>
    constructor
    · refine ⟨"failed to create tmux window: " ++ e, ?_⟩
      simp only [CreateInstance, if_neg hbr, hnest, Bool.false_eq_true, if_false,
        hbytes, hs, hadd, hnw, herase]
    · intro e2 he2
      cases he2
      simp only [CreateInstance, if_neg hbr, hnest, Bool.false_eq_true, if_false,
        hbytes, hs, hadd, hnw, herase]
  | ok wid =>
    have hwerase := hwin wid (hwid wid hnw)
    refine ⟨?_, ?_⟩
    swap
    · intro e2 he2
      cases he2
    cases hro : env.remainOnExit with
    | error e =>
      refine ⟨"failed to set remain-on-exit: " ++ e, ?_⟩
      simp only [CreateInstance, if_neg hbr, hnest, Bool.false_eq_true, if_false,
        hbytes, hs, hadd, hnw, hro, herase, hwerase]
    | ok u1 =>
      cases hp1 : env.listPanes1 with
      | error e =>
        refine ⟨"failed to get primary pane: " ++ e, ?_⟩
        simp only [CreateInstance, if_neg hbr, hnest, Bool.false_eq_true, if_false,
          hbytes, hs, hadd, hnw, hro, hp1, herase, hwerase]
      | ok panes1 =>
        by_cases hpl1 : panes1.length = 0
        · refine ⟨"failed to get primary pane", ?_⟩
          simp only [CreateInstance, if_neg hbr, hnest, Bool.false_eq_true, if_false,
            hbytes, hs, hadd, hnw, hro, hp1, hpl1, if_pos, herase, hwerase]
        · cases hsk : env.sendKeysMain with
          | error e =>
            refine ⟨"failed to launch opencode: " ++ e, ?_⟩
            simp only [CreateInstance, if_neg hbr, hnest, Bool.false_eq_true, if_false,
              hbytes, hs, hadd, hnw, hro, hp1, if_neg hpl1, hsk, herase, hwerase]
          | ok u2 =>
            cases hp2 : env.listPanes2 with
            | error e =>
              refine ⟨"failed to capture PID: " ++ e, ?_⟩
              simp only [CreateInstance, if_neg hbr, hnest, Bool.false_eq_true, if_false,
                hbytes, hs, hadd, hnw, hro, hp1, if_neg hpl1, hsk, hp2, herase, hwerase]
            | ok panes2 =>
              by_cases hpl2 : panes2.length = 0
              · refine ⟨"failed to capture PID", ?_⟩
                simp only [CreateInstance, if_neg hbr, hnest, Bool.false_eq_true, if_false,
                  hbytes, hs, hadd, hnw, hro, hp1, if_neg hpl1, hsk, hp2, hpl2, if_pos,
                  herase, hwerase]
              · cases hini : (if opts.initCommand = "" then Except.ok ()
                    else env.sendKeysInit) with
                | error e =>
                  refine ⟨"failed to run init command: " ++ e, ?_⟩
                  simp only [CreateInstance, if_neg hbr, hnest, Bool.false_eq_true, if_false,
                    hbytes, hs, hadd, hnw, hro, hp1, if_neg hpl1, hsk, hp2, if_neg hpl2,
                    hini, herase, hwerase]
                | ok u3 =>
                  exfalso
                  rcases hfail with ⟨e, h⟩ | ⟨e, h⟩ | ⟨e, h⟩ | h | ⟨e, h⟩ | ⟨e, h⟩ | h |
                    ⟨hic, e, h⟩
                  · rw [hnw] at h; cases h
                  · rw [hro] at h; cases h
                  · rw [hp1] at h; cases h
                  · rw [hp1] at h; cases h; exact hpl1 rfl
                  · rw [hsk] at h; cases h
                  · rw [hp2] at h; cases h
                  · rw [hp2] at h; cases h; exact hpl2 rfl
                  · rw [if_neg hic, h] at hini; cases hini

/-- Concrete instantiation of the C6 theorem: with window creation failing on
"boom" and every earlier step succeeding, create returns the wrapped error and
the world (worktrees, windows, store) is exactly the pre-create world. -/
theorem CreateInstance_rollback_witness :
    CreateInstance "/r" ".worktrees" windowFailEnv createOptsX emptyWorld
      = (.error ("failed to create tmux window: " ++ "boom"), emptyWorld) :=
  (CreateInstance_rollback "/r" ".worktrees" windowFailEnv createOptsX emptyWorld
    (by decide) rfl ⟨_, rfl⟩ ⟨"ocw-repo", rfl⟩ rfl (by decide)
    (fun wid h => nomatch h) (Or.inl ⟨"boom", rfl⟩)).2 "boom" rfl

/-- Boolean containment agrees with membership for strings. -/
theorem contains_eq_true_iff (l : List String) (a : String) :
    l.contains a = true ↔ a ∈ l := by
  induction l with
  | nil => simp
  | cons x xs ih => simp [List.contains_cons, ih]

/-- Folding removals over the store filters out every listed id. -/
theorem applyRemovals_instances (ids : List String) : ∀ (st : State),
    (applyRemovals ids st).instances
      = st.instances.filter (fun i => !(ids.contains i.id)) := by
  induction ids with
  | nil =>
    intro st
    simp [applyRemovals]
  | cons x xs ih =>
    intro st
    show (applyRemovals xs (RemoveInstance st x)).instances = _
    rw [ih]
    simp only [RemoveInstance]
    rw [List.filter_filter]
    apply List.filter_congr
    intro a _
    by_cases h : a.id = x <;> simp [List.contains_cons, h]

/-- A missed updateFirst means no element matches. -/
theorem updateFirst_none_all {fn : Instance → Instance} {t : String} :
    ∀ l, updateFirst fn t l = none → ∀ i ∈ l, (i.id == t) = false := by
  intro l
  induction l with
  | nil => intro _ i hi; exact absurd hi (List.not_mem_nil i)
  | cons x xs ih =>
    intro h i hi
    by_cases hx : (x.id == t) = true
    · simp [updateFirst, hx] at h
    · have hx2 : (x.id == t) = false := by simpa using hx
      simp only [updateFirst, hx2, Bool.false_eq_true, if_false] at h
      rcases List.mem_cons.mp hi with rfl | hmem
      · exact hx2
      · cases hu : updateFirst fn t xs with
        | some r => rw [hu] at h; cases h
        | none => exact ih hu i hmem

/-- Mapping a guarded rewrite over a list with no match is the identity. -/
theorem map_if_id_of_no_match {fn : Instance → Instance} {t : String} :
    ∀ (l : List Instance), (∀ i ∈ l, (i.id == t) = false) →
      l.map (fun i => if i.id == t then fn i else i) = l := by
  intro l
  induction l with
  | nil => intro _; rfl
  | cons x xs ih =>
    intro h
    simp only [List.map_cons, h x (List.mem_cons_self x xs), Bool.false_eq_true,
      if_false, List.cons.injEq, true_and]
    exact ih (fun i hi => h i (List.mem_cons_of_mem x hi))

/-- With unique ids, one first-match update acts as the pointwise guarded
rewrite over the whole instance list. -/
theorem updateFirst_map_nodup (fn : Instance → Instance) (t : String) :
    ∀ (l : List Instance), ((l.map Instance.id).Nodup) →
      (match updateFirst fn t l with | some r => r | none => l)
        = l.map (fun i => if i.id == t then fn i else i) := by
  intro l
  induction l with
  | nil => intro _; rfl
  | cons x xs ih =>
    intro hnodup
    have hnodup2 : (xs.map Instance.id).Nodup := (List.nodup_cons.mp hnodup).2
    have hxnot : x.id ∉ xs.map Instance.id := (List.nodup_cons.mp hnodup).1
    by_cases hx : (x.id == t) = true
    · have hxt : x.id = t := by simpa using hx
      simp only [updateFirst, hx, if_true, List.map_cons]
      have : xs.map (fun i => if i.id == t then fn i else i) = xs := by
        apply map_if_id_of_no_match
        intro i hi
        have : i.id ≠ t := by
          intro he
          exact hxnot (by rw [hxt, ← he]; exact List.mem_map_of_mem Instance.id hi)
        simpa using this
      rw [this]
    · have hx2 : (x.id == t) = false := by simpa using hx
      simp only [updateFirst, hx2, Bool.false_eq_true, if_false, List.map_cons]
      have ihr := ih hnodup2
      cases hu : updateFirst fn t xs with
      | some r =>
        rw [hu] at ihr
        simp only [Option.map, List.cons.injEq]
        exact ⟨trivial, ihr⟩
      | none =>
        rw [hu] at ihr
        simp only [Option.map, List.cons.injEq]
        exact ⟨trivial, ihr⟩

/-- reconErr twice is reconErr once. -/
theorem reconErr_idem (i : Instance) : reconErr (reconErr i) = reconErr i := rfl

/-- reconErr keeps the id. -/
theorem reconErr_id (i : Instance) : (reconErr i).id = i.id := rfl

/-- With unique ids, folding status updates acts as the pointwise guarded
rewrite by the update id set. -/
theorem applyErrorUpdates_instances (ids : List String) : ∀ (st : State),
    (st.instances.map Instance.id).Nodup →
    (applyErrorUpdates ids st).instances
      = st.instances.map (fun i => if ids.contains i.id then reconErr i else i) := by
  induction ids with
  | nil =>
    intro st _
    simp [applyErrorUpdates]
  | cons x xs ih =>
    intro st hnodup
    have hstep : (match UpdateInstance st x reconErr with
        | .ok s2 => s2
        | .error _ => st).instances
        = st.instances.map (fun i => if i.id == x then reconErr i else i) := by
      unfold UpdateInstance
      cases hu : updateFirst reconErr x st.instances with
      | some r =>
        have := updateFirst_map_nodup reconErr x st.instances hnodup
        rw [hu] at this
        exact this
      | none =>
        have := updateFirst_map_nodup reconErr x st.instances hnodup
        rw [hu] at this
        exact this
    have hids : ((match UpdateInstance st x reconErr with
        | .ok s2 => s2
        | .error _ => st).instances.map Instance.id)
        = st.instances.map Instance.id := by
      rw [hstep, List.map_map]
      apply List.map_congr_left
      intro a _
      by_cases h : a.id = x <;> simp [h, reconErr_id]
    show (applyErrorUpdates xs _).instances = _
    rw [ih _ (by rw [hids]; exact hnodup), hstep, List.map_map]
    apply List.map_congr_left
    intro a _
    by_cases h1 : a.id = x <;> by_cases h2 : a.id ∈ xs <;>
      simp [Function.comp, h1, h2, reconErr_id, reconErr_idem,
        List.contains_cons, contains_eq_true_iff]

/-- C1 (amended) — For a stored instance whose worktree is listed, when the
session is absent, or present with the instance's window absent, reconcile
sets the status to error provided the prior status was running or paused (the
decision-table rows are conditioned on the stored status). -/
theorem Reconcile_window_absent_marks_error (env : ReconEnv) (st : State)
    (inst : Instance)
    (hnodup : (st.instances.map Instance.id).Nodup)
    (hmem : inst ∈ st.instances)
    (hwt : reconKeep env inst = true)
    (hwin : (env.sessionExists && env.windows.contains inst.tmuxWindow) = false)
    (hstat : inst.status = "running" ∨ inst.status = "paused") :
    { inst with status := "error" } ∈ (Reconcile env st).instances := by
  have hso : (inst.status == "running" || inst.status == "paused") = true := by
    rcases hstat with h | h <;> simp [h]
  have hneed : reconNeedsError env inst = true := by
    cases hsess : env.sessionExists with
    | false => simp [reconNeedsError, hsess, hso]
    | true =>
      have hcont : env.windows.contains inst.tmuxWindow = false := by
        simpa [hsess] using hwin
      have hnm : inst.tmuxWindow ∉ env.windows := by
        intro hm
        rw [(contains_eq_true_iff env.windows inst.tmuxWindow).mpr hm] at hcont
        cases hcont
      simp [reconNeedsError, windowPresent, hsess, hso, hnm]
  have hinj := List.inj_on_of_nodup_map hnodup
  have hremoved : ((st.instances.filter
      (fun i => !(reconKeep env i))).map Instance.id).contains inst.id = false := by
    rw [Bool.eq_false_iff]
    intro hc
    rw [contains_eq_true_iff] at hc
    obtain ⟨j, hj, hjid⟩ := List.mem_map.mp hc
    have hj2 := List.mem_filter.mp hj
    have : j = inst := hinj hj2.1 hmem hjid
    rw [this] at hj2
    rw [hwt] at hj2
    simp at hj2
  have hupdated : ((st.instances.filter (fun i => reconKeep env i)).filterMap
      (fun i => if reconNeedsError env i then some i.id else none)).contains
        inst.id = true := by
    rw [contains_eq_true_iff]
    apply List.mem_filterMap.mpr
    refine ⟨inst, List.mem_filter.mpr ⟨hmem, hwt⟩, ?_⟩
    rw [hneed]
    simp
  have hnodup2 : ((applyRemovals ((st.instances.filter
      (fun i => !(reconKeep env i))).map Instance.id) st).instances.map
        Instance.id).Nodup := by
    rw [applyRemovals_instances]
    exact (List.Sublist.map Instance.id (List.filter_sublist _)).nodup hnodup
  unfold Reconcile
  rw [applyErrorUpdates_instances _ _ hnodup2, applyRemovals_instances]
  apply List.mem_map.mpr
  refine ⟨inst, List.mem_filter.mpr ⟨hmem, by rw [hremoved]; rfl⟩, ?_⟩
  rw [hupdated]
  rfl

/-- Concrete instantiation of the amended C1 theorem: a running instance with
its worktree listed and the session gone is marked error. -/
theorem Reconcile_window_absent_marks_error_witness :
    { runningWtInstance with status := "error" }
      ∈ (Reconcile sessionGoneEnv runningWtState).instances :=
  Reconcile_window_absent_marks_error sessionGoneEnv runningWtState
    runningWtInstance (by decide) (by decide) (by decide) (by decide)
    (Or.inl rfl)

/-- C1 — The claim says the session-absent and window-absent rows apply to
every prior status.  For an idle instance with its worktree listed and the
session gone, reconcile leaves the status idle, not error. -/
theorem Reconcile_any_status_counterexample :
    (Reconcile sessionGoneEnv idleState).instances.map Instance.status = ["idle"] ∧
    ¬ ("idle" = "error") :=
  ⟨rfl, by decide⟩

/-- Membership after recording one direction of a conflict. -/
theorem addConflict_mem (m : String → List String) (a b x y : String) :
    x ∈ addConflict m a b y ↔ x ∈ m y ∨ (y = a ∧ x = b) := by
  unfold addConflict
  by_cases h : y = a
  · subst h
    simp
  · simp [h]

/-- Membership after one iteration of the pair scan. -/
theorem pairStep_mem (instances : List Instance) (files : String → Option (List String))
    (m : String → List String) (p : Nat × Nat) (x y : String) :
    x ∈ pairStep instances files m p y ↔ x ∈ m y ∨ pairRecords instances files p y x := by
  simp only [pairStep, pairRecords]
  by_cases h1 : p.2 ≤ p.1
  · rw [if_pos h1]
    have hnlt : ¬ p.1 < p.2 := by omega
    exact ⟨fun h => Or.inl h, fun h => h.elim id (fun hr => absurd hr.1 hnlt)⟩
  · rw [if_neg h1]
    have hlt : p.1 < p.2 := by omega
    by_cases h2 : (instances.getD p.1 blankInstance).branch
        = (instances.getD p.2 blankInstance).branch
    · rw [if_pos h2]
      exact ⟨fun h => Or.inl h, fun h => h.elim id (fun hr => absurd h2 hr.2.1)⟩
    · rw [if_neg h2]
      by_cases h3 : hasOverlap (files (instances.getD p.1 blankInstance).id)
          (files (instances.getD p.2 blankInstance).id) = true
      · rw [if_pos h3, addConflict_mem, addConflict_mem]
        constructor
        · rintro ((h | h) | h)
          · exact Or.inl h
          · exact Or.inr ⟨hlt, h2, h3, Or.inl h⟩
          · exact Or.inr ⟨hlt, h2, h3, Or.inr h⟩
        · rintro (h | ⟨h4, h5, h6, (h | h)⟩)
          · exact Or.inl (Or.inl h)
          · exact Or.inl (Or.inr h)
          · exact Or.inr h
      · rw [if_neg h3]
        exact ⟨fun h => Or.inl h, fun h => h.elim id (fun hr => absurd hr.2.2.1 h3)⟩

/-- Membership after the whole pair scan. -/
theorem foldl_pairStep_mem (instances : List Instance)
    (files : String → Option (List String)) :
    ∀ (ps : List (Nat × Nat)) (m : String → List String) (x y : String),
      x ∈ ps.foldl (pairStep instances files) m y ↔
        x ∈ m y ∨ ∃ p ∈ ps, pairRecords instances files p y x := by
  intro ps
  induction ps with
  | nil =>
    intro m x y
    simp
  | cons q ps ih =>
    intro m x y
    rw [List.foldl_cons, ih, pairStep_mem]
    constructor
    · rintro ((h | h) | ⟨p, hp, hr⟩)
      · exact Or.inl h
      · exact Or.inr ⟨q, List.mem_cons_self q ps, h⟩
      · exact Or.inr ⟨p, List.mem_cons_of_mem _ hp, hr⟩
    · rintro (h | ⟨p, hp, hr⟩)
      · exact Or.inl (Or.inl h)
      · rcases List.mem_cons.mp hp with rfl | hmem
        · exact Or.inl (Or.inr hr)
        · exact Or.inr ⟨p, hmem, hr⟩

/-- Pairs visited by the double loop are exactly the in-range index pairs. -/
theorem pairIndices_mem (n : Nat) (p : Nat × Nat) :
    p ∈ pairIndices n ↔ p.1 < n ∧ p.2 < n := by
  unfold pairIndices
  constructor
  · intro h
    obtain ⟨i, hi, hmem⟩ := List.mem_flatMap.mp h
    obtain ⟨j, hj, heq⟩ := List.mem_map.mp hmem
    rw [← heq]
    exact ⟨List.mem_range.mp hi, List.mem_range.mp hj⟩
  · rintro ⟨h1, h2⟩
    apply List.mem_flatMap.mpr
    exact ⟨p.1, List.mem_range.mpr h1,
      List.mem_map.mpr ⟨p.2, List.mem_range.mpr h2, rfl⟩⟩

/-- Membership in the detected conflict map. -/
theorem DetectConflicts_mem (diff : String → String → Option (List String))
    (instances : List Instance) (x y : String) :
    x ∈ DetectConflicts diff instances y ↔
      ∃ p ∈ pairIndices instances.length,
        pairRecords instances (buildModifiedFiles diff instances) p y x := by
  unfold DetectConflicts
  rw [foldl_pairStep_mem]
  simp

/-- Overlap of file sets is symmetric. -/
theorem hasOverlap_comm (f1 f2 : Option (List String)) :
    hasOverlap f1 f2 = hasOverlap f2 f1 := by
  cases f1 with
  | none => cases f2 <;> rfl
  | some l1 =>
    cases f2 with
    | none => rfl
    | some l2 =>
      simp only [hasOverlap]
      rw [Bool.eq_iff_iff]
      simp only [List.any_eq_true, contains_eq_true_iff]
      exact ⟨fun ⟨v, h1, h2⟩ => ⟨v, h2, h1⟩, fun ⟨v, h1, h2⟩ => ⟨v, h2, h1⟩⟩

/-- In-range getD is a member. -/
theorem getD_mem_of_lt : ∀ (l : List Instance) (i : Nat), i < l.length →
    l.getD i blankInstance ∈ l := by
  intro l
  induction l with
  | nil => intro i h; simp at h
  | cons a l2 ih =>
    intro i h
    cases i with
    | zero => exact List.mem_cons_self a l2
    | succ k =>
      exact List.mem_cons_of_mem a (ih k (by simpa using h))

/-- Every member sits at an index where getD returns it. -/
theorem getD_of_get : ∀ (l : List Instance) (a : Instance), a ∈ l →
    ∃ i, i < l.length ∧ l.getD i blankInstance = a := by
  intro l
  induction l with
  | nil => intro a h; exact absurd h (List.not_mem_nil a)
  | cons x l2 ih =>
    intro a h
    rcases List.mem_cons.mp h with rfl | hmem
    · exact ⟨0, by simp, rfl⟩
    · obtain ⟨i, hi, hget⟩ := ih a hmem
      exact ⟨i + 1, by simpa using hi, hget⟩

/-- A found updateFirst exists whenever the id is present. -/
theorem updateFirst_isSome_of_mem (fn : Instance → Instance) (t : String) :
    ∀ (l : List Instance), t ∈ l.map Instance.id →
      (updateFirst fn t l).isSome = true := by
  intro l
  induction l with
  | nil => intro h; simp at h
  | cons x xs ih =>
    intro h
    by_cases hx : (x.id == t) = true
    · simp [updateFirst, hx]
    · have hx2 : (x.id == t) = false := by simpa using hx
      have hmem : t ∈ xs.map Instance.id := by
        rcases List.mem_cons.mp h with heq | hmem
        · exfalso
          rw [heq] at hx2
          simp at hx2
        · exact hmem
      have hs := ih hmem
      simp only [updateFirst, hx2, Bool.false_eq_true, if_false]
      cases hu : updateFirst fn t xs with
      | some r => simp
      | none => rw [hu] at hs; simp at hs

/-- Bind of a successful Except is application. -/
theorem except_bind_ok {σ : Type} (a : σ) (f : σ → Except String σ) :
    (Except.ok a >>= f) = f a := rfl

/-- With unique ids, folding the per-instance conflict writes acts as the
pointwise rewrite of conflicts_with over the store. -/
theorem foldM_conflicts_map (conflicts : String → List String) :
    ∀ (insts : List Instance) (st : State),
      ((st.instances.map Instance.id).Nodup) →
      (∀ i ∈ insts, i.id ∈ st.instances.map Instance.id) →
      insts.foldlM (fun s inst =>
        UpdateInstance s inst.id
          (fun j => { j with conflictsWith := conflicts inst.id })) st
      = .ok { st with instances := st.instances.map (fun j =>
          if (insts.map Instance.id).contains j.id
          then { j with conflictsWith := conflicts j.id } else j) } := by
  intro insts
  induction insts with
  | nil =>
    intro st _ _
    simp only [List.foldlM, List.map_nil, List.contains_nil, Bool.false_eq_true,
      if_false]
    show Except.ok st = _
    congr 1
    have hmap : st.instances.map (fun j => j) = st.instances := by
      induction st.instances with
      | nil => rfl
      | cons y ys ihy => simp only [List.map_cons, ihy]
    rw [hmap]
  | cons x insts ih =>
    intro st hnodup hids
    have hxid : x.id ∈ st.instances.map Instance.id :=
      hids x (List.mem_cons_self x insts)
    have hsome := updateFirst_isSome_of_mem
      (fun j => { j with conflictsWith := conflicts x.id }) x.id st.instances hxid
    cases hu : updateFirst (fun j => { j with conflictsWith := conflicts x.id })
        x.id st.instances with
    | none => rw [hu] at hsome; simp at hsome
    | some r =>
      have hchar := updateFirst_map_nodup
        (fun j => { j with conflictsWith := conflicts x.id }) x.id st.instances hnodup
      rw [hu] at hchar
      have hstep : UpdateInstance st x.id
          (fun j => { j with conflictsWith := conflicts x.id })
          = .ok { st with instances := r } := by
        unfold UpdateInstance
        rw [hu]
      have hchar2 : r = st.instances.map (fun i =>
          if (i.id == x.id) = true
          then { i with conflictsWith := conflicts x.id } else i) := hchar
      have hrids : r.map Instance.id = st.instances.map Instance.id := by
        rw [hchar2, List.map_map]
        apply List.map_congr_left
        intro a _
        by_cases h : a.id = x.id <;> simp [h]
      rw [List.foldlM_cons, hstep, except_bind_ok]
      rw [ih { st with instances := r } (by simpa [hrids] using hnodup)
        (fun i hi => by
          have := hids i (List.mem_cons_of_mem x hi)
          simpa [hrids] using this)]
      congr 1
      congr 1
      simp only [hchar2, List.map_map]
      apply List.map_congr_left
      intro a _
      by_cases h1 : a.id = x.id <;> by_cases h2 : a.id ∈ insts.map Instance.id <;>
        simp [Function.comp, h1, h2, List.contains_cons, contains_eq_true_iff]

/-- Every instance of the conflict-updated store is a store instance with its
conflicts_with field replaced by its entry of the detected map. -/
theorem conflicts_updated_mem (diff : String → String → Option (List String))
    (st : State) (a : Instance)
    (ha : a ∈ (st.instances.map (fun j =>
      if ((st.instances.map Instance.id).contains j.id)
      then { j with conflictsWith := DetectConflicts diff st.instances j.id }
      else j))) :
    ∃ a0, a0 ∈ st.instances ∧
      a = { a0 with conflictsWith := DetectConflicts diff st.instances a0.id } := by
  obtain ⟨a0, ha0, heq⟩ := List.mem_map.mp ha
  refine ⟨a0, ha0, ?_⟩
  rw [← heq, if_pos ((contains_eq_true_iff _ _).mpr
    (List.mem_map_of_mem Instance.id ha0))]

/-- C4 — After the cross-instance conflict update completes on a store with
unique ids, the update succeeds, conflicts_with is symmetric, same-branch
pairs record no conflict, and every detected overlap is written back at both
endpoints. -/
theorem UpdateInstanceConflicts_symmetric
    (diff : String → String → Option (List String)) (st : State)
    (hnodup : (st.instances.map Instance.id).Nodup) :
    ∃ st2, UpdateInstanceConflicts diff st st.instances = .ok st2 ∧
      (∀ a ∈ st2.instances, ∀ b ∈ st2.instances,
        a.id ∈ b.conflictsWith → b.id ∈ a.conflictsWith) ∧
      (∀ a ∈ st2.instances, ∀ b ∈ st2.instances,
        a.branch = b.branch → a.id ∉ b.conflictsWith) ∧
      (∀ a ∈ st2.instances, ∀ b ∈ st2.instances, a.id ≠ b.id →
        a.branch ≠ b.branch →
        hasOverlap (buildModifiedFiles diff st.instances a.id)
          (buildModifiedFiles diff st.instances b.id) = true →
        a.id ∈ b.conflictsWith ∧ b.id ∈ a.conflictsWith) := by
  have hinj := List.inj_on_of_nodup_map hnodup
  have hfold := foldM_conflicts_map (DetectConflicts diff st.instances) st.instances st
    hnodup (fun i hi => List.mem_map_of_mem Instance.id hi)
  refine ⟨_, hfold, ?_, ?_, ?_⟩
  · intro a ha b hb hab
    obtain ⟨a0, ha0, rfl⟩ := conflicts_updated_mem diff st a ha
    obtain ⟨b0, hb0, rfl⟩ := conflicts_updated_mem diff st b hb
    simp only at hab ⊢
    obtain ⟨p, hp, hlt, hbr, hov, hor⟩ :=
      (DetectConflicts_mem diff st.instances _ _).mp hab
    apply (DetectConflicts_mem diff st.instances _ _).mpr
    refine ⟨p, hp, hlt, hbr, hov, ?_⟩
    rcases hor with ⟨h1, h2⟩ | ⟨h1, h2⟩
    · exact Or.inr ⟨h2, h1⟩
    · exact Or.inl ⟨h2, h1⟩
  · intro a ha b hb hbranch hab
    obtain ⟨a0, ha0, rfl⟩ := conflicts_updated_mem diff st a ha
    obtain ⟨b0, hb0, rfl⟩ := conflicts_updated_mem diff st b hb
    simp only at hbranch hab
    obtain ⟨p, hp, hlt, hbr, hov, hor⟩ :=
      (DetectConflicts_mem diff st.instances _ _).mp hab
    obtain ⟨hp1, hp2⟩ := (pairIndices_mem _ _).mp hp
    have hm1 := getD_mem_of_lt st.instances p.1 hp1
    have hm2 := getD_mem_of_lt st.instances p.2 hp2
    rcases hor with ⟨h1, h2⟩ | ⟨h1, h2⟩
    · have e1 : st.instances.getD p.1 blankInstance = b0 := hinj hm1 hb0 h1.symm
      have e2 : st.instances.getD p.2 blankInstance = a0 := hinj hm2 ha0 h2.symm
      rw [e1, e2] at hbr
      exact hbr hbranch.symm
    · have e1 : st.instances.getD p.2 blankInstance = b0 := hinj hm2 hb0 h1.symm
      have e2 : st.instances.getD p.1 blankInstance = a0 := hinj hm1 ha0 h2.symm
      rw [e1, e2] at hbr
      exact hbr hbranch
  · intro a ha b hb hid hbranch hov
    obtain ⟨a0, ha0, rfl⟩ := conflicts_updated_mem diff st a ha
    obtain ⟨b0, hb0, rfl⟩ := conflicts_updated_mem diff st b hb
    simp only at hid hbranch hov ⊢
    obtain ⟨ia, hia, hga⟩ := getD_of_get st.instances a0 ha0
    obtain ⟨ib, hib, hgb⟩ := getD_of_get st.instances b0 hb0
    rcases Nat.lt_trichotomy ia ib with hlt | heq | hgt
    · have hrec : pairRecords st.instances (buildModifiedFiles diff st.instances)
          (ia, ib) b0.id a0.id := by
        refine ⟨hlt, ?_, ?_, Or.inr ⟨by rw [hgb], by rw [hga]⟩⟩
        · show ¬ (st.instances.getD ia blankInstance).branch = _
          rw [hga, hgb]
          exact hbranch
        · show hasOverlap (buildModifiedFiles diff st.instances
            (st.instances.getD ia blankInstance).id) _ = true
          rw [hga, hgb]
          exact hov
      have hrec2 : pairRecords st.instances (buildModifiedFiles diff st.instances)
          (ia, ib) a0.id b0.id := by
        obtain ⟨x1, x2, x3, _⟩ := hrec
        exact ⟨x1, x2, x3, Or.inl ⟨by rw [hga], by rw [hgb]⟩⟩
      constructor
      · exact (DetectConflicts_mem diff st.instances _ _).mpr
          ⟨(ia, ib), (pairIndices_mem _ _).mpr ⟨hia, hib⟩, hrec⟩
      · exact (DetectConflicts_mem diff st.instances _ _).mpr
          ⟨(ia, ib), (pairIndices_mem _ _).mpr ⟨hia, hib⟩, hrec2⟩
    · exfalso
      apply hid
      rw [← hga, ← hgb, heq]
    · have hrec : pairRecords st.instances (buildModifiedFiles diff st.instances)
          (ib, ia) b0.id a0.id := by
        refine ⟨hgt, ?_, ?_, Or.inl ⟨by rw [hgb], by rw [hga]⟩⟩
        · show ¬ (st.instances.getD ib blankInstance).branch = _
          rw [hga, hgb]
          exact fun he => hbranch he.symm
        · show hasOverlap (buildModifiedFiles diff st.instances
            (st.instances.getD ib blankInstance).id) _ = true
          rw [hga, hgb, hasOverlap_comm]
          exact hov
      have hrec2 : pairRecords st.instances (buildModifiedFiles diff st.instances)
          (ib, ia) a0.id b0.id := by
        obtain ⟨x1, x2, x3, _⟩ := hrec
        exact ⟨x1, x2, x3, Or.inr ⟨by rw [hga], by rw [hgb]⟩⟩
      constructor
      · exact (DetectConflicts_mem diff st.instances _ _).mpr
          ⟨(ib, ia), (pairIndices_mem _ _).mpr ⟨hib, hia⟩, hrec⟩
      · exact (DetectConflicts_mem diff st.instances _ _).mpr
          ⟨(ib, ia), (pairIndices_mem _ _).mpr ⟨hib, hia⟩, hrec2⟩

/-- Concrete instantiation of the C4 theorem: the two-instance store on
branches b1 and b2, both touching f.txt, satisfies the id-uniqueness
hypothesis and the symmetric-update conclusion. -/
theorem UpdateInstanceConflicts_symmetric_witness :
    ∃ st2, UpdateInstanceConflicts overlapDiff conflictState
        conflictState.instances = .ok st2 ∧
      (∀ a ∈ st2.instances, ∀ b ∈ st2.instances,
        a.id ∈ b.conflictsWith → b.id ∈ a.conflictsWith) ∧
      (∀ a ∈ st2.instances, ∀ b ∈ st2.instances,
        a.branch = b.branch → a.id ∉ b.conflictsWith) ∧
      (∀ a ∈ st2.instances, ∀ b ∈ st2.instances, a.id ≠ b.id →
        a.branch ≠ b.branch →
        hasOverlap (buildModifiedFiles overlapDiff conflictState.instances a.id)
          (buildModifiedFiles overlapDiff conflictState.instances b.id) = true →
        a.id ∈ b.conflictsWith ∧ b.id ∈ a.conflictsWith) :=
  UpdateInstanceConflicts_symmetric overlapDiff conflictState (by decide)

/-- Every member is bounded by the foldr maximum. -/
theorem le_foldr_max : ∀ (l : List Nat) (x : Nat), x ∈ l → x ≤ l.foldr Nat.max 0 := by
  intro l
  induction l with
  | nil => intro x h; exact absurd h (List.not_mem_nil x)
  | cons y ys ih =>
    intro x h
    rcases List.mem_cons.mp h with rfl | hm
    · exact Nat.le_max_left _ _
    · exact le_trans (ih x hm) (Nat.le_max_right _ _)

/-- Main invariant of the fuelled DFS along false-returning runs: the ranking
invariant is preserved, black vertices stay black, the gray set is unchanged,
a visited vertex ends black, and every in-graph vertex of a scanned list ends
black. -/
theorem dfsGo_false_inv (instances : List Instance) :
    ∀ (fuel : Nat) (c : String → Color) (task : String ⊕ List String)
      (c2 : String → Color),
      dfsGo instances fuel c task = (false, c2) →
      DfsInv instances c →
      (∀ v, task = .inl v → c v = Color.white) →
      DfsInv instances c2 ∧
      (∀ u, c u = Color.black → c2 u = Color.black) ∧
      (∀ u, c u = Color.gray → c2 u = Color.gray) ∧
      (∀ u, c2 u = Color.gray → c u = Color.gray) ∧
      (∀ v, task = .inl v → c2 v = Color.black) ∧
      (∀ ds, task = .inr ds → ∀ d ∈ ds, idMem instances d = true →
        c2 d = Color.black) := by
  intro fuel
  induction fuel with
  | zero =>
    intro c task c2 hrun _ _
    simp [dfsGo] at hrun
  | succ fuel ih =>
    intro c task c2 hrun hinv hwhite
    cases task with
    | inl v =>
      have hv : c v = Color.white := hwhite v rfl
      simp only [dfsGo] at hrun
      cases hs : dfsGo instances fuel (setColor c v .gray)
          (.inr (depsOf instances v)) with
      | mk b cs =>
        rw [hs] at hrun
        cases b with
        | true => simp at hrun
        | false =>
          have hc2 : c2 = setColor cs v Color.black := by
            have := congrArg Prod.snd hrun
            exact this.symm
          have hinv1 : DfsInv instances (setColor c v .gray) := by
            obtain ⟨rank, hr⟩ := hinv
            refine ⟨rank, ?_⟩
            intro u d hu hedge
            unfold setColor at hu
            by_cases huv : u = v
            · rw [if_pos huv] at hu; cases hu
            · rw [if_neg huv] at hu
              obtain ⟨hd, hrank⟩ := hr u d hu hedge
              have hdv : d ≠ v := by
                intro he
                rw [he, hv] at hd
                cases hd
              refine ⟨?_, hrank⟩
              unfold setColor
              rw [if_neg hdv]
              exact hd
          obtain ⟨hinv2, hmono, hgray1, hgray2, _, hdeps⟩ :=
            ih (setColor c v .gray) (.inr (depsOf instances v)) cs hs hinv1
              (fun w hw => by cases hw)
          have hcsv : cs v = Color.gray := by
            apply hgray1
            unfold setColor
            rw [if_pos rfl]
          subst hc2
          refine ⟨?_, ?_, ?_, ?_, ?_, ?_⟩
          · obtain ⟨rank, hr⟩ := hinv2
            refine ⟨fun u => if u = v
              then ((depsOf instances v).map rank).foldr Nat.max 0 + 1
              else rank u, ?_⟩
            intro u d hu hedge
            unfold setColor at hu
            by_cases huv : u = v
            · subst huv
              obtain ⟨hidu, hidd, hmem⟩ := hedge
              have hdblack : cs d = Color.black :=
                hdeps (depsOf instances u) rfl d hmem hidd
              have hdnev : d ≠ u := by
                intro he
                rw [he, hcsv] at hdblack
                cases hdblack
              constructor
              · unfold setColor
                rw [if_neg hdnev]
                exact hdblack
              · dsimp only
                rw [if_neg hdnev, if_pos rfl]
                have hle : rank d ≤ ((depsOf instances u).map rank).foldr Nat.max 0 :=
                  le_foldr_max _ _ (List.mem_map_of_mem rank hmem)
                omega
            · rw [if_neg huv] at hu
              obtain ⟨hd, hrank⟩ := hr u d hu hedge
              have hdnev : d ≠ v := by
                intro he
                rw [he, hcsv] at hd
                cases hd
              constructor
              · unfold setColor
                rw [if_neg hdnev]
                exact hd
              · dsimp only
                rw [if_neg hdnev, if_neg huv]
                exact hrank
          · intro u hu
            unfold setColor
            by_cases huv : u = v
            · rw [if_pos huv]
            · rw [if_neg huv]
              apply hmono
              unfold setColor
              rw [if_neg huv]
              exact hu
          · intro u hu
            have huv : u ≠ v := by
              intro he
              rw [he, hv] at hu
              cases hu
            unfold setColor
            rw [if_neg huv]
            apply hgray1
            unfold setColor
            rw [if_neg huv]
            exact hu
          · intro u hu
            unfold setColor at hu
            by_cases huv : u = v
            · rw [if_pos huv] at hu; cases hu
            · rw [if_neg huv] at hu
              have := hgray2 u hu
              unfold setColor at this
              rw [if_neg huv] at this
              exact this
          · intro w hw
            cases hw
            unfold setColor
            rw [if_pos rfl]
          · intro ds hds
            cases hds
    | inr ds =>
      cases ds with
      | nil =>
        simp only [dfsGo] at hrun
        have hc2 : c2 = c := by
          have := congrArg Prod.snd hrun
          exact this.symm
        subst hc2
        refine ⟨hinv, fun u hu => hu, fun u hu => hu, fun u hu => hu,
          (fun v hv => by cases hv), ?_⟩
        intro ds2 hds2 d hd
        cases hds2
        exact absurd hd (List.not_mem_nil d)
      | cons d ds =>
        simp only [dfsGo] at hrun
        by_cases hid : idMem instances d = true
        · rw [if_pos hid] at hrun
          by_cases hgray : c d = Color.gray
          · rw [if_pos hgray] at hrun
            simp at hrun
          · rw [if_neg hgray] at hrun
            by_cases hwhite2 : c d = Color.white
            · rw [if_pos hwhite2] at hrun
              cases hv : dfsGo instances fuel c (.inl d) with
              | mk b cv =>
                rw [hv] at hrun
                cases b with
                | true => simp at hrun
                | false =>
                  obtain ⟨hinvA, hmonoA, hgA1, hgA2, hblackA, _⟩ :=
                    ih c (.inl d) cv hv hinv
                      (fun w hw => by cases hw; exact hwhite2)
                  obtain ⟨hinvB, hmonoB, hgB1, hgB2, _, hdepsB⟩ :=
                    ih cv (.inr ds) c2 hrun hinvA (fun w hw => by cases hw)
                  refine ⟨hinvB, ?_, ?_, ?_, (fun w hw => by cases hw), ?_⟩
                  · exact fun u hu => hmonoB u (hmonoA u hu)
                  · exact fun u hu => hgB1 u (hgA1 u hu)
                  · exact fun u hu => hgA2 u (hgB2 u hu)
                  · intro ds2 hds2 e he hide
                    cases hds2
                    rcases List.mem_cons.mp he with rfl | hm
                    · exact hmonoB e (hblackA e rfl)
                    · exact hdepsB ds rfl e hm hide
            · rw [if_neg hwhite2] at hrun
              have hdb : c d = Color.black := by
                cases hcd : c d
                · exact absurd hcd hwhite2
                · exact absurd hcd hgray
                · rfl
              obtain ⟨hinvB, hmonoB, hgB1, hgB2, _, hdepsB⟩ :=
                ih c (.inr ds) c2 hrun hinv (fun w hw => by cases hw)
              refine ⟨hinvB, hmonoB, hgB1, hgB2, (fun w hw => by cases hw), ?_⟩
              intro ds2 hds2 e he hide
              cases hds2
              rcases List.mem_cons.mp he with rfl | hm
              · exact hmonoB e hdb
              · exact hdepsB ds rfl e hm hide
        · rw [if_neg hid] at hrun
          obtain ⟨hinvB, hmonoB, hgB1, hgB2, _, hdepsB⟩ :=
            ih c (.inr ds) c2 hrun hinv (fun w hw => by cases hw)
          refine ⟨hinvB, hmonoB, hgB1, hgB2, (fun w hw => by cases hw), ?_⟩
          intro ds2 hds2 e he hide
          cases hds2
          rcases List.mem_cons.mp he with rfl | hm
          · exact absurd hide hid
          · exact hdepsB ds rfl e hm hide

/-- The outer loop, on a false run from a gray-free invariant state, ends with
every listed id black (in some final colouring that still satisfies the
invariant). -/
theorem hasCycleLoop_false_inv (instances : List Instance) :
    ∀ (vs : List String) (c : String → Color),
      hasCycleLoop instances c vs = false →
      DfsInv instances c →
      (∀ u, c u ≠ Color.gray) →
      ∃ c2 : String → Color, DfsInv instances c2 ∧
        (∀ u, c u = Color.black → c2 u = Color.black) ∧
        (∀ u, c2 u ≠ Color.gray) ∧
        (∀ v ∈ vs, c2 v = Color.black) := by
  intro vs
  induction vs with
  | nil =>
    intro c h hinv hng
    exact ⟨c, hinv, fun u hu => hu, hng, fun v hv => absurd hv (List.not_mem_nil v)⟩
  | cons v vs ih =>
    intro c h hinv hng
    simp only [hasCycleLoop] at h
    by_cases hv : c v = Color.white
    · rw [if_pos hv] at h
      cases hrun : dfsGo instances (dfsFuel instances) c (.inl v) with
      | mk b cv =>
        rw [hrun] at h
        cases b with
        | true => simp at h
        | false =>
          obtain ⟨hinv2, hmono, hg1, hg2, hblackv, _⟩ :=
            dfsGo_false_inv instances (dfsFuel instances) c (.inl v) cv hrun hinv
              (fun w hw => by cases hw; exact hv)
          have hng2 : ∀ u, cv u ≠ Color.gray := fun u hu => hng u (hg2 u hu)
          obtain ⟨c2, hinv3, hmono2, hng3, hall⟩ := ih cv h hinv2 hng2
          refine ⟨c2, hinv3, ?_, hng3, ?_⟩
          · exact fun u hu => hmono2 u (hmono u hu)
          · intro w hw
            rcases List.mem_cons.mp hw with rfl | hm
            · exact hmono2 w (hblackv w rfl)
            · exact hall w hm
    · rw [if_neg hv] at h
      have hvb : c v = Color.black := by
        cases hcv : c v
        · exact absurd hcv hv
        · exact absurd hcv (hng v)
        · rfl
      obtain ⟨c2, hinv3, hmono2, hng3, hall⟩ := ih c h hinv hng
      refine ⟨c2, hinv3, hmono2, hng3, ?_⟩
      intro w hw
      rcases List.mem_cons.mp hw with rfl | hm
      · exact hmono2 w hvb
      · exact hall w hm

/-- Completeness of the detector: a false answer means the dependency graph
has no cycle. -/
theorem hasCycle_false_acyclic (instances : List Instance)
    (h : hasCycle instances = false) :
    ∀ v, ¬ Relation.TransGen (Edge instances) v v := by
  unfold hasCycle at h
  have hinv0 : DfsInv instances (fun _ => Color.white) :=
    ⟨fun _ => 0, fun u d hu _ => by cases hu⟩
  obtain ⟨c2, ⟨rank, hr⟩, _, _, hall⟩ :=
    hasCycleLoop_false_inv instances (instances.map Instance.id)
      (fun _ => Color.white) h hinv0 (fun u hu => by cases hu)
  have hblack : ∀ u, idMem instances u = true → c2 u = Color.black := by
    intro u hu
    exact hall u ((contains_eq_true_iff (instances.map Instance.id) u).mp hu)
  have hdec : ∀ a b2, Relation.TransGen (Edge instances) a b2 →
      c2 a = Color.black → c2 b2 = Color.black ∧ rank b2 < rank a := by
    intro a b2 htg
    induction htg with
    | single e => intro ha; exact hr _ _ ha e
    | tail htrans e ihh =>
      intro ha
      obtain ⟨hmid, hlt⟩ := ihh ha
      obtain ⟨hb, hlt2⟩ := hr _ _ hmid e
      exact ⟨hb, lt_trans hlt2 hlt⟩
  intro v htg
  have hvblack : c2 v = Color.black := by
    cases htg with
    | single e => exact hblack v e.1
    | tail htrans e => exact hblack v e.2.1
  have := (hdec v v htg hvblack).2
  omega

/-- C5 — AddDependency fails on a self-edge, on an already-present edge, and
whenever the grown graph would contain a cycle; every failure returns an error
before the store's save step, so the persisted store is unchanged; and after
every successful AddDependency the stored depends_on graph is acyclic. -/
theorem AddDependency_guards (st : State) (a b : String) :
    (a = b → ∃ e, AddDependency st a b = .error e) ∧
    (∀ inst, lookupLast st.instances a = some inst → b ∈ inst.dependsOn →
      ∃ e, AddDependency st a b = .error e) ∧
    ((∃ v, Relation.TransGen (Edge (updateLast
        (fun i => { i with dependsOn := i.dependsOn ++ [b] }) a st.instances)) v v) →
      ∃ e, AddDependency st a b = .error e) ∧
    (∀ st2, AddDependency st a b = .ok st2 →
      st2.instances = updateLast
        (fun i => { i with dependsOn := i.dependsOn ++ [b] }) a st.instances ∧
      ∀ v, ¬ Relation.TransGen (Edge st2.instances) v v) := by
  refine ⟨?_, ?_, ?_, ?_⟩
  · intro hab
    refine ⟨"an instance cannot depend on itself", ?_⟩
    unfold AddDependency
    rw [if_pos hab]
  · intro inst hlook hmem
    by_cases hab : a = b
    · exact ⟨_, by unfold AddDependency; rw [if_pos hab]⟩
    · simp only [AddDependency, if_neg hab, hlook]
      by_cases hcont : (st.instances.map Instance.id).contains b = false
      · rw [if_pos hcont]
        exact ⟨_, rfl⟩
      · rw [if_neg hcont]
        have hdup : inst.dependsOn.contains b = true :=
          (contains_eq_true_iff _ _).mpr hmem
        rw [if_pos hdup]
        exact ⟨_, rfl⟩
  · intro hcyc
    by_cases hab : a = b
    · exact ⟨_, by unfold AddDependency; rw [if_pos hab]⟩
    · cases hlook : lookupLast st.instances a with
      | none =>
        refine ⟨"instance " ++ a ++ " not found", ?_⟩
        simp only [AddDependency, if_neg hab, hlook]
      | some inst =>
        simp only [AddDependency, if_neg hab, hlook]
        by_cases hcont : (st.instances.map Instance.id).contains b = false
        · rw [if_pos hcont]
          exact ⟨_, rfl⟩
        · rw [if_neg hcont]
          by_cases hdup : inst.dependsOn.contains b = true
          · rw [if_pos hdup]
            exact ⟨_, rfl⟩
          · rw [if_neg hdup]
            obtain ⟨v, hv⟩ := hcyc
            have htrue : hasCycle (updateLast
                (fun i => { i with dependsOn := i.dependsOn ++ [b] })
                a st.instances) = true := by
              by_contra hn
              have hfalse : hasCycle (updateLast
                  (fun i => { i with dependsOn := i.dependsOn ++ [b] })
                  a st.instances) = false := by
                simpa using hn
              exact hasCycle_false_acyclic _ hfalse v hv
            rw [if_pos htrue]
            exact ⟨_, rfl⟩
  · intro st2 hok
    by_cases hab : a = b
    · unfold AddDependency at hok
      rw [if_pos hab] at hok
      cases hok
    · cases hlook : lookupLast st.instances a with
      | none =>
        simp only [AddDependency, if_neg hab, hlook] at hok
        cases hok
      | some inst =>
        simp only [AddDependency, if_neg hab, hlook] at hok
        by_cases hcont : (st.instances.map Instance.id).contains b = false
        · rw [if_pos hcont] at hok
          cases hok
        · rw [if_neg hcont] at hok
          by_cases hdup : inst.dependsOn.contains b = true
          · rw [if_pos hdup] at hok
            cases hok
          · rw [if_neg hdup] at hok
            by_cases hcyc2 : hasCycle (updateLast
                (fun i => { i with dependsOn := i.dependsOn ++ [b] })
                a st.instances) = true
            · rw [if_pos hcyc2] at hok
              cases hok
            · rw [if_neg hcyc2] at hok
              cases hok
              refine ⟨rfl, ?_⟩
              have hfalse : hasCycle (updateLast
                  (fun i => { i with dependsOn := i.dependsOn ++ [b] })
                  a st.instances) = false := by
                simpa using hcyc2
              exact hasCycle_false_acyclic _ hfalse

/-- Concrete instantiation of the C5 theorem: a self-edge and a duplicate edge
fail, the reverse edge bb to aa on a store where aa already depends on bb
would close a cycle and fails, and after the successful addition of aa to bb
on the two-instance store the stored graph is acyclic at aa. -/
theorem AddDependency_guards_witness :
    (∃ e, AddDependency depPairState "aa" "aa" = .error e) ∧
    (∃ e, AddDependency depChainState "aa" "bb" = .error e) ∧
    (∃ e, AddDependency depChainState "bb" "aa" = .error e) ∧
    ∀ st2, AddDependency depPairState "aa" "bb" = .ok st2 →
      ¬ Relation.TransGen (Edge st2.instances) "aa" "aa" := by
  refine ⟨(AddDependency_guards depPairState "aa" "aa").1 rfl,
    (AddDependency_guards depChainState "aa" "bb").2.1
      { blankInstance with id := "aa", dependsOn := ["bb"] } rfl (by decide),
    (AddDependency_guards depChainState "bb" "aa").2.2.1 ⟨"aa", ?_⟩,
    fun st2 hok =>
      ((AddDependency_guards depPairState "aa" "bb").2.2.2 st2 hok).2 "aa"⟩
  have e1 : Edge (updateLast
      (fun i => { i with dependsOn := i.dependsOn ++ ["aa"] })
      "bb" depChainState.instances) "aa" "bb" := by
    refine ⟨by decide, by decide, by decide⟩
  have e2 : Edge (updateLast
      (fun i => { i with dependsOn := i.dependsOn ++ ["aa"] })
      "bb" depChainState.instances) "bb" "aa" := by
    refine ⟨by decide, by decide, by decide⟩
  exact Relation.TransGen.tail (Relation.TransGen.single e1) e2

end OCW
